import Mathlib

/-!
The autopilot code generator, `codegen/generate.go`.

A shallow embedding of `Load`, `projectFiles`, `phaseFiles`, `Generate`,
`renderProjectFile`, `renderWorkerFile` and `autopilotRoot`, together with
the standard-library functions they call (`strings.Split`, `filepath.Join`,
`filepath.Dir`, `os.Chdir`, `ioutil.ReadFile`).

Go strings are modelled by Lean `String`s.  Go's multiple return values
`(x, err)` are modelled by pairs whose components are `Option`s, `none`
standing for `nil`.  The process state (working directory, file system,
environment, heap) is passed explicitly.
-/

namespace Autopilot

/-! ## Go standard library: `strings` and `path/filepath` (Unix) -/

/-- Pieces of `s` between the occurrences of the character `c`; always
    one piece more than there are occurrences. -/
def splitOnChar (c : Char) : List Char → List (List Char)
  | [] => [[]]
  | x :: xs =>
    if x = c then [] :: splitOnChar c xs
    else
      match splitOnChar c xs with
      | [] => [[x]]
      | p :: ps => (x :: p) :: ps

/-- Go `strings.Split(s, sep)` for a separator of one character, which is how
    `Load` calls it (`sep = "/"`). -/
def strings.Split (s : String) (sep : Char) : List String :=
  (splitOnChar sep s.data).map String.mk

/-- Go `strings.Join(elems, sep)`. -/
def strings.Join (elems : List String) (sep : String) : String :=
  sep.intercalate elems

/-- The path element `..`. -/
def dotdot : List Char := ['.', '.']

/-- One step of `filepath.Clean` over path elements; `st` is the stack of the
    elements kept so far, the last one first.  A `..` removes the element
    before it, unless there is none or it is itself a `..`: then it is
    dropped in a rooted path and kept in a relative one. -/
def cleanStep (rooted : Bool) (st : List (List Char)) (c : List Char) : List (List Char) :=
  if c = dotdot then
    match st with
    | [] => if rooted then [] else [dotdot]
    | top :: rest => if top = dotdot then dotdot :: st else rest
  else c :: st

/-- The elements of a path that `filepath.Clean` looks at: empty elements
    (from repeated separators) and `.` elements are eliminated. -/
def pathElems (path : List Char) : List (List Char) :=
  (splitOnChar '/' path).filter (fun c => c ≠ [] ∧ c ≠ ['.'])

/-- Go `filepath.Clean` on Unix, on character lists. -/
def cleanChars (path : List Char) : List Char :=
  let rooted := path.head? = some '/'
  let st := (pathElems path).foldl (cleanStep rooted) []
  let out := (if rooted then ['/'] else []) ++ ['/'].intercalate st.reverse
  if out = [] then ['.'] else out

/-- Go `filepath.Clean` on Unix. -/
def filepath.Clean (path : String) : String :=
  String.mk (cleanChars path.data)

/-- Go `filepath.Join` on Unix: the elements from the first non-empty one on
    are joined with `/` and the result is cleaned; with no non-empty element
    the result is the empty string. -/
def filepath.Join : List String → String
  | [] => ""
  | e :: es =>
    if e = "" then filepath.Join es
    else filepath.Clean (strings.Join (e :: es) "/")

/-- The part of a path up to and including its last `/`. -/
def dirPart (path : List Char) : List Char :=
  (path.reverse.dropWhile (fun c => c ≠ '/')).reverse

/-- Go `filepath.Dir` on Unix: everything up to the last separator, cleaned. -/
def filepath.Dir (path : String) : String :=
  filepath.Clean (String.mk (dirPart path.data))


/-! ## Data model -/

/-- A Go `error` value. -/
structure Error where
  msg : String
deriving DecidableEq, Repr

deriving instance DecidableEq for Except

/-- A processing phase.  `Project` is the back-reference `*TemplateData`: the
    heap address of the owning model, `none` for the nil pointer.  The
    declaration of the type is not part of `generate.go`; name, inputs and
    outputs are the fields of the descriptor. -/
structure Phase where
  Name : String
  Inputs : List String
  Outputs : List String
  Project : Option Nat
deriving DecidableEq, Repr

/-- A `[]Phase` slice value: a reference to its backing array on the heap.
    Copying the slice value copies the reference, not the elements.  No code
    here reslices, so a slice always spans its whole backing array. -/
structure PhaseSlice where
  array : Nat
deriving DecidableEq, Repr

/-- The project descriptor (`Project` in the source). -/
structure Project where
  ApiVersion : String
  Kind : String
  Phases : PhaseSlice
deriving DecidableEq, Repr

/-- The derived model handed to the templates, with the fields `Load` sets. -/
structure TemplateData where
  Project : Project
  ProjectPackage : String
  Group : String
  Version : String
  TypesImportPath : String
  SchedulerImportPath : String
  ConfigImportPath : String
  KindLowerCamel : String
deriving DecidableEq, Repr

/-- The file to generate (`GenFile` in the source); the fields left out of a
    literal have Go's zero values. -/
structure GenFile where
  OutPath : String
  TemplatePath : String
  SkipOverwrite : Bool := false
  Content : String := ""
deriving DecidableEq, Repr

/-! ## Process state: heap and operating system -/

/-- The heap: backing arrays of `[]Phase` slices and the allocated
    `TemplateData` objects; an address is a position in the list. -/
structure Heap where
  arrays : List (List Phase)
  objects : List TemplateData
deriving DecidableEq, Repr

/-- Allocation of a new backing array holding `ps`. -/
def Heap.allocArray (h : Heap) (ps : List Phase) : PhaseSlice × Heap :=
  (⟨h.arrays.length⟩, { h with arrays := h.arrays ++ [ps] })

/-- Allocation of a `TemplateData` object (`&TemplateData{...}`). -/
def Heap.allocData (h : Heap) (d : TemplateData) : Nat × Heap :=
  (h.objects.length, { h with objects := h.objects ++ [d] })

/-- The object a `*TemplateData` points to. -/
def Heap.deref (h : Heap) (p : Nat) : Option TemplateData :=
  h.objects[p]?

/-- The elements of a slice, as `range` visits them. -/
def Heap.phases (h : Heap) (s : PhaseSlice) : List Phase :=
  (h.arrays[s.array]?).getD []

/-- The value of `s[i]`. -/
def Heap.index (h : Heap) (s : PhaseSlice) (i : Nat) : Option Phase :=
  (h.phases s)[i]?

/-- The assignment `s[i] = p`, a write to the backing array. -/
def Heap.store (h : Heap) (s : PhaseSlice) (i : Nat) (p : Phase) : Heap :=
  { h with arrays := h.arrays.set s.array ((h.phases s).set i p) }

/-- The state of the operating system seen by the program: the working
    directory (an absolute path), the environment variables, the regular
    files and the directories (by absolute, clean path), and the paths of
    the files read so far, oldest first. -/
structure World where
  cwd : String
  environ : List (String × String)
  files : List (String × String)
  dirs : List String
  reads : List String
deriving DecidableEq, Repr

/-- The absolute path a path names in the current working directory. -/
def World.abs (w : World) (path : String) : String :=
  if path.data.head? = some '/' then filepath.Clean path
  else filepath.Join [w.cwd, path]

/-- Go `os.Getenv`: the empty string for a variable that is not set. -/
def os.Getenv (w : World) (key : String) : String :=
  (w.environ.lookup key).getD ""

/-- Go `ioutil.ReadFile`: the contents of the file, or an error when there is
    no such file.  The access is recorded in `reads`. -/
def ioutil.ReadFile (w : World) (filename : String) : Except Error String × World :=
  let w1 := { w with reads := w.reads ++ [w.abs filename] }
  if filename = "" then (.error ⟨"open : no such file or directory"⟩, w1)
  else
    match w.files.lookup (w.abs filename) with
    | some content => (.ok content, w1)
    | none => (.error ⟨"open " ++ filename ++ ": no such file or directory"⟩, w1)

/-- Go `os.Chdir`: the working directory becomes `dir` when that is a
    directory, and is left alone with an error otherwise. -/
def os.Chdir (w : World) (dir : String) : Option Error × World :=
  if dir ≠ "" ∧ w.abs dir ∈ w.dirs then (none, { w with cwd := w.abs dir })
  else (some ⟨"chdir " ++ dir ++ ": no such file or directory"⟩, w)

/-! ## Collaborators outside `generate.go` -/

/-- The descriptor as decoded from YAML, before `Load` derives anything. -/
structure Descriptor where
  ApiVersion : String
  Kind : String
  Phases : List Phase
deriving DecidableEq, Repr

/-- What a template is executed against: the whole model (`Execute(buf, data)`)
    or one phase (`Execute(buf, phase)`). -/
inductive Context where
  | model (data : TemplateData)
  | phase (phase : Phase)
deriving DecidableEq, Repr

/-- The libraries and the functions of other files that `generate.go` calls,
    as parameters: `yaml.Unmarshal`, `util.GetGoPkg`, `pluralize`'s `Plural`,
    `strings.ToLower`, `strcase.ToLowerCamel`, `workerImportPrefix`, and the
    `text/template` engine (parsing with the function map of the model, and
    execution). -/
structure Env where
  Unmarshal : String → Except Error Descriptor
  GetGoPkg : World → String
  Plural : String → String
  ToLower : String → String
  ToLowerCamel : String → String
  workerImportPrefix : Phase → String
  Parse : Heap → TemplateData → String → String → Option Error
  Execute : Heap → TemplateData → String → String → Context → Except Error String

/-- Modelled from the spec: `hasInputs` is defined in another file of the
    package; a phase has inputs when its `inputs` is non-empty. -/
def hasInputs (phase : Phase) : Bool :=
  !phase.Inputs.isEmpty

/-- Modelled from the spec: `hasOutputs` is defined in another file of the
    package; a phase has outputs when its `outputs` is non-empty. -/
def hasOutputs (phase : Phase) : Bool :=
  !phase.Outputs.isEmpty

/-! ## `generate.go` -/

/-- Go `fmt.Errorf("%v must be format groupname/version", parts)`: a slice of
    strings is printed as its elements between brackets, separated by blanks. -/
def formatError (parts : List String) : Error :=
  ⟨"[" ++ " ".intercalate parts ++ "] must be format groupname/version"⟩

/-- The loop at the end of `Load`,
    `for i, phase := range project.Phases { phase.Project = data; project.Phases[i] = phase }`,
    over the indices `is`: each element is copied, the copy gets the
    back-reference and is written back into the backing array. -/
def bindPhases (phases : PhaseSlice) (data : Nat) (is : List Nat) (h : Heap) : Heap :=
  is.foldl
    (fun h i =>
      match h.index phases i with
      | some phase => h.store phases i { phase with Project := some data }
      | none => h)
    h

/-- `Load(file)`.  The result is the pair `(*TemplateData, error)`, with the
    state of the operating system and of the heap after the call.
    `yaml.Unmarshal` decodes into the local `project`, whose phases it puts
    in a new backing array. -/
def Load (env : Env) (w : World) (h : Heap) (file : String) :
    (Option Nat × Option Error) × World × Heap :=
  match ioutil.ReadFile w file with
  | (.error err, w) => ((none, some err), w, h)
  | (.ok projData, w) =>
    match env.Unmarshal projData with
    | .error err => ((none, some err), w, h)
    | .ok doc =>
      let (phases, h) := h.allocArray doc.Phases
      let project : Project :=
        { ApiVersion := doc.ApiVersion, Kind := doc.Kind, Phases := phases }
      match os.Chdir w (filepath.Dir file) with
      | (some err, w) => ((none, some err), w, h)
      | (none, w) =>
        let projectGoPkg := env.GetGoPkg w
        let apiVersionParts := strings.Split project.ApiVersion '/'
        if apiVersionParts.length ≠ 2 then
          ((none, some (formatError apiVersionParts)), w, h)
        else
          let apiGroup := apiVersionParts.getD 0 ""
          let apiVersion := apiVersionParts.getD 1 ""
          let apiImportPath := filepath.Join
            [projectGoPkg, "pkg", "apis", env.ToLower (env.Plural project.Kind), apiVersion]
          let schedulerImportPath := filepath.Join [projectGoPkg, "pkg", "scheduler"]
          let configImportPath := filepath.Join [projectGoPkg, "pkg", "config"]
          let (data, h) := h.allocData
            { Project := project
              ProjectPackage := projectGoPkg
              Group := apiGroup
              Version := apiVersion
              TypesImportPath := apiImportPath
              SchedulerImportPath := schedulerImportPath
              ConfigImportPath := configImportPath
              KindLowerCamel := env.ToLowerCamel project.Kind }
          let h := bindPhases project.Phases data
            (List.range (h.phases project.Phases).length) h
          ((some data, none), w, h)

/-- `projectFiles(data)`. -/
def projectFiles (data : TemplateData) : List GenFile :=
  [ { OutPath := filepath.Join [data.ProjectPackage, "main.go"], TemplatePath := "code/main.gotmpl" },
    { OutPath := filepath.Join [data.SchedulerImportPath, "scheduler.go"], TemplatePath := "code/scheduler.gotmpl" },
    { OutPath := filepath.Join [data.ConfigImportPath, "config.go"], TemplatePath := "code/config.gotmpl", SkipOverwrite := true },
    { OutPath := filepath.Join [data.TypesImportPath, "doc.go"], TemplatePath := "code/doc.gotmpl" },
    { OutPath := filepath.Join [data.TypesImportPath, "phases.go"], TemplatePath := "code/phases.gotmpl" },
    { OutPath := filepath.Join [data.TypesImportPath, "register.go"], TemplatePath := "code/register.gotmpl" },
    { OutPath := filepath.Join [data.TypesImportPath, "spec.go"], TemplatePath := "code/spec.gotmpl", SkipOverwrite := true },
    { OutPath := filepath.Join [data.TypesImportPath, "types.go"], TemplatePath := "code/types.gotmpl" },
    { OutPath := filepath.Join [data.ProjectPackage, "build", "Dockerfile"], TemplatePath := "build/Dockerfile.tmpl" },
    { OutPath := filepath.Join [data.ProjectPackage, "build", "bin", "user_setup"], TemplatePath := "build/user_setup.tmpl" },
    { OutPath := filepath.Join [data.ProjectPackage, "build", "bin", "entrypoint"], TemplatePath := "build/entrypoint.tmpl" } ]

/-- `phaseFiles(data, phase)`. -/
def phaseFiles (env : Env) (data : TemplateData) (phase : Phase) : List GenFile :=
  [ { OutPath := filepath.Join [data.ProjectPackage, "pkg", "workers", env.workerImportPrefix phase, "parameters.go"], TemplatePath := "code/parameters.gotmpl" },
    { OutPath := filepath.Join [data.ProjectPackage, "pkg", "workers", env.workerImportPrefix phase, "worker.go"], TemplatePath := "code/worker.gotmpl", SkipOverwrite := true } ]

/-- `autopilotRoot()`. -/
def autopilotRoot (w : World) : String :=
  filepath.Join [os.Getenv w "GOPATH", "src", "github.com", "solo-io", "autopilot"]

/-- `renderProjectFile(data, templateFile)`: the template is read, parsed with
    the function map of `data`, and executed against `data`. -/
def renderProjectFile (env : Env) (w : World) (h : Heap) (data : TemplateData)
    (templateFile : String) : (String × Option Error) × World :=
  let fullPath := filepath.Join [autopilotRoot w, "codegen", "templates", templateFile]
  match ioutil.ReadFile w fullPath with
  | (.error err, w) => (("", some err), w)
  | (.ok content, w) =>
    match env.Parse h data templateFile content with
    | some err => (("", some err), w)
    | none =>
      match env.Execute h data templateFile content (.model data) with
      | .error err => (("", some err), w)
      | .ok out => ((out, none), w)

/-- `renderWorkerFile(data, phase, templateFile)`: the template is read, parsed
    with the function map of `data`, and executed against `phase`. -/
def renderWorkerFile (env : Env) (w : World) (h : Heap) (data : TemplateData) (phase : Phase)
    (templateFile : String) : (String × Option Error) × World :=
  let fullPath := filepath.Join [autopilotRoot w, "codegen", "templates", templateFile]
  match ioutil.ReadFile w fullPath with
  | (.error err, w) => (("", some err), w)
  | (.ok content, w) =>
    match env.Parse h data templateFile content with
    | some err => (("", some err), w)
    | none =>
      match env.Execute h data templateFile content (.phase phase) with
      | .error err => (("", some err), w)
      | .ok out => ((out, none), w)

/-- Go `append(files, f)` on a slice that may be nil (`none`). -/
def goAppend (files : Option (List GenFile)) (f : GenFile) : Option (List GenFile) :=
  some (files.getD [] ++ [f])

/-- The first loop of `Generate`, over the project files still to render.
    An error ends the loop. -/
def generateProjectLoop (env : Env) (h : Heap) (data : TemplateData) :
    List GenFile → Option (List GenFile) → World → Except Error (Option (List GenFile)) × World
  | [], files, w => (.ok files, w)
  | projectFile :: rest, files, w =>
    match renderProjectFile env w h data projectFile.TemplatePath with
    | ((_, some err), w) => (.error err, w)
    | ((contents, none), w) =>
      generateProjectLoop env h data rest (goAppend files { projectFile with Content := contents }) w

/-- The inner loop of `Generate`, over the files of one phase still to render. -/
def generatePhaseLoop (env : Env) (h : Heap) (data : TemplateData) (phase : Phase) :
    List GenFile → Option (List GenFile) → World → Except Error (Option (List GenFile)) × World
  | [], files, w => (.ok files, w)
  | phaseFile :: rest, files, w =>
    match renderWorkerFile env w h data phase phaseFile.TemplatePath with
    | ((_, some err), w) => (.error err, w)
    | ((contents, none), w) =>
      generatePhaseLoop env h data phase rest (goAppend files { phaseFile with Content := contents }) w

/-- The second loop of `Generate`, over the phases still to visit. -/
def generatePhasesLoop (env : Env) (h : Heap) (data : TemplateData) :
    List Phase → Option (List GenFile) → World → Except Error (Option (List GenFile)) × World
  | [], files, w => (.ok files, w)
  | phase :: rest, files, w =>
    if hasInputs phase || hasOutputs phase then
      match generatePhaseLoop env h data phase (phaseFiles env data phase) files w with
      | (.error err, w) => (.error err, w)
      | (.ok files, w) => generatePhasesLoop env h data rest files w
    else generatePhasesLoop env h data rest files w

/-- `Generate(data)`.  The result is the pair `([]GenFile, error)` with the
    state of the operating system after the call; `files` starts as the nil
    slice. -/
def Generate (env : Env) (w : World) (h : Heap) (data : TemplateData) :
    (Option (List GenFile) × Option Error) × World :=
  match generateProjectLoop env h data (projectFiles data) none w with
  | (.error err, w) => ((none, some err), w)
  | (.ok files, w) =>
    match generatePhasesLoop env h data (h.phases data.Project.Phases) files w with
    | (.error err, w) => ((none, some err), w)
    | (.ok files, w) => ((files, none), w)

/-! ## A concrete environment, used to evaluate the definitions -/

/-- The descriptors the sample decoder knows, by the text of the file. -/
def sampleDocs : List (String × Descriptor) :=
  [ ("widget-build",
      { ApiVersion := "apps.example.com/v1", Kind := "Widget",
        Phases := [⟨"build", ["spec"], [], none⟩] }),
    ("widget-noop",
      { ApiVersion := "apps.example.com/v1", Kind := "Widget",
        Phases := [⟨"noop", [], [], none⟩] }),
    ("widget-mixed",
      { ApiVersion := "apps.example.com/v1", Kind := "Widget",
        Phases := [⟨"Init", [], [], none⟩, ⟨"Sync", ["spec"], ["status"], none⟩,
                   ⟨"Done", [], ["report"], none⟩] }),
    ("badformat", { ApiVersion := "badformat", Kind := "Widget", Phases := [] }),
    ("three", { ApiVersion := "a/b/c", Kind := "Widget", Phases := [] }),
    ("no-group", { ApiVersion := "/v1", Kind := "Widget", Phases := [] }),
    ("no-version", { ApiVersion := "apps.example.com/", Kind := "Widget", Phases := [] }),
    ("slash", { ApiVersion := "/", Kind := "Widget", Phases := [] }) ]

/-- Lower case of the ASCII letters. -/
def asciiLower (s : String) : String :=
  String.mk (s.data.map Char.toLower)

/-- A stand-in for the libraries: a decoder that knows `sampleDocs`, a module
    root read off the working directory below `/go/src/`, plurals in `s`, and
    a template engine that rejects the empty template and otherwise prints
    the template text followed by the name of what it is executed against. -/
def sampleEnv : Env where
  Unmarshal := fun s =>
    match sampleDocs.lookup s with
    | some d => .ok d
    | none => .error ⟨"yaml: cannot unmarshal"⟩
  GetGoPkg := fun w => String.mk (w.cwd.data.drop 8)
  Plural := fun s => s ++ "s"
  ToLower := asciiLower
  ToLowerCamel := fun s =>
    match s.data with
    | [] => ""
    | c :: cs => String.mk (c.toLower :: cs)
  workerImportPrefix := fun phase => asciiLower phase.Name
  Parse := fun _ _ name content =>
    if content = "" then some ⟨"template: " ++ name ++ ": empty"⟩ else none
  Execute := fun _ data _ content ctx =>
    match ctx with
    | .model d => .ok (content ++ " " ++ d.Project.Kind)
    | .phase p =>
      if p.Name = "" then .error ⟨"template: phase without name"⟩
      else .ok (content ++ " " ++ data.Project.Kind ++ "." ++ p.Name)

/-- The directory of the templates in the sample file system. -/
def sampleTemplates : String := "/go/src/github.com/solo-io/autopilot/codegen/templates/"

/-- The template files of the sample file system. -/
def sampleTemplateFiles : List (String × String) :=
  [ "code/main.gotmpl", "code/scheduler.gotmpl", "code/config.gotmpl", "code/doc.gotmpl",
    "code/phases.gotmpl", "code/register.gotmpl", "code/spec.gotmpl", "code/types.gotmpl",
    "build/Dockerfile.tmpl", "build/user_setup.tmpl", "build/entrypoint.tmpl",
    "code/parameters.gotmpl", "code/worker.gotmpl" ].map
    (fun t => (sampleTemplates ++ t, "T:" ++ t))

/-- A file system with the templates and one project directory holding a
    descriptor whose text is `doc`; the process runs in `/home/dev`. -/
def sampleWorld (doc : String) : World where
  cwd := "/home/dev"
  environ := [("GOPATH", "/go")]
  files := ("/go/src/example.com/widget/autopilot.yaml", doc) :: sampleTemplateFiles
  dirs := ["/", "/home/dev", "/go/src/example.com/widget"]
  reads := []

/-- The heap before anything is allocated. -/
def emptyHeap : Heap := ⟨[], []⟩

/-- The path of the descriptor in the sample file system. -/
def sampleFile : String := "/go/src/example.com/widget/autopilot.yaml"

/-- The model `Load` derives from the sample descriptors of kind `Widget`. -/
def widgetModel : TemplateData where
  Project := ⟨"apps.example.com/v1", "Widget", ⟨0⟩⟩
  ProjectPackage := "example.com/widget"
  Group := "apps.example.com"
  Version := "v1"
  TypesImportPath := "example.com/widget/pkg/apis/widgets/v1"
  SchedulerImportPath := "example.com/widget/pkg/scheduler"
  ConfigImportPath := "example.com/widget/pkg/config"
  KindLowerCamel := "widget"

/-- The heap with `widgetModel` at address 0 and its phases in array 0. -/
def widgetHeap (phases : List Phase) : Heap :=
  ⟨[phases], [widgetModel]⟩

/-- The phase `build` with the input `spec`, bound to the model at address 0. -/
def buildPhase : Phase := ⟨"build", ["spec"], [], some 0⟩

/-- The phase `noop` without inputs and outputs, bound to the model at address 0. -/
def noopPhase : Phase := ⟨"noop", [], [], some 0⟩

/-- The sample file system without the template of the spec file. -/
def brokenWorld : World :=
  { sampleWorld "widget-build" with
    files := (sampleWorld "widget-build").files.filter
      (fun x => x.1 ≠ sampleTemplates ++ "code/spec.gotmpl") }

/-! ## Vocabulary of the statements -/

/-- The state of the operating system after further reads `ps`. -/
def World.addReads (w : World) (ps : List String) : World :=
  { w with reads := w.reads ++ ps }

/-- `Load(file)` gets as far as the check of the API version with the decoded
    descriptor `doc`: the file is read, it is decoded into `doc`, and the
    change of directory succeeds. -/
def LoadReaches (env : Env) (w : World) (file : String) (doc : Descriptor) : Prop :=
  ∃ projData, (ioutil.ReadFile w file).1 = .ok projData ∧
    env.Unmarshal projData = .ok doc ∧
    (os.Chdir (ioutil.ReadFile w file).2 (filepath.Dir file)).1 = none

/-- An entry of the plan: a file to generate with the phase that owns it, or
    `none` for a project file. -/
abbrev Planned := GenFile × Option Phase

/-- The phases that get files: those with inputs or outputs. -/
def eligible (phases : List Phase) : List Phase :=
  phases.filter (fun phase => hasInputs phase || hasOutputs phase)

/-- The plan: the project files, then the files of each eligible phase, in
    the order of the phases. -/
def plan (env : Env) (h : Heap) (data : TemplateData) : List Planned :=
  (projectFiles data).map (fun f => (f, none)) ++
    (eligible (h.phases data.Project.Phases)).flatMap
      (fun phase => (phaseFiles env data phase).map (fun f => (f, some phase)))

/-- The render of a planned file: against the model for a project file,
    against the owning phase for a phase file. -/
def renderPlanned (env : Env) (w : World) (h : Heap) (data : TemplateData) (x : Planned) :
    (String × Option Error) × World :=
  match x.2 with
  | none => renderProjectFile env w h data x.1.TemplatePath
  | some phase => renderWorkerFile env w h data phase x.1.TemplatePath

/-- The planned file with the rendered text as its content. -/
def filled (env : Env) (w : World) (h : Heap) (data : TemplateData) (x : Planned) : GenFile :=
  { x.1 with Content := (renderPlanned env w h data x).1.1 }

/-- The absolute path of the file read for the template `templateFile`. -/
def templateSource (w : World) (templateFile : String) : String :=
  w.abs (filepath.Join [autopilotRoot w, "codegen", "templates", templateFile])

/-- The renders of a list of planned files in order, stopping at the first
    error: the common shape of the loops of `Generate`. -/
def renderPlan (env : Env) (h : Heap) (data : TemplateData) :
    List Planned → Option (List GenFile) → World → Except Error (Option (List GenFile)) × World
  | [], files, w => (.ok files, w)
  | x :: rest, files, w =>
    match renderPlanned env w h data x with
    | ((_, some err), w) => (.error err, w)
    | ((contents, none), w) =>
      renderPlan env h data rest (goAppend files { x.1 with Content := contents }) w

/-- Every render that `Generate` asks for succeeds: each project file against
    the model, and each file of each phase with inputs or outputs against
    that phase. -/
def RendersSucceed (env : Env) (w : World) (h : Heap) (data : TemplateData) : Prop :=
  (∀ f ∈ projectFiles data, (renderProjectFile env w h data f.TemplatePath).1.2 = none) ∧
  (∀ phase ∈ h.phases data.Project.Phases, (hasInputs phase || hasOutputs phase) = true →
    ∀ f ∈ phaseFiles env data phase,
      (renderWorkerFile env w h data phase f.TemplatePath).1.2 = none)

/-- The templates of the files that are not overwritten. -/
def keptTemplates : List String :=
  ["code/config.gotmpl", "code/spec.gotmpl", "code/worker.gotmpl"]

/-- The number of `/` in a string. -/
def slashes (s : String) : Nat :=
  s.data.count '/'

/-- The entry of the plan for the spec file of the sample model. -/
def specEntry : Planned :=
  ({ OutPath := "example.com/widget/pkg/apis/widgets/v1/spec.go",
     TemplatePath := "code/spec.gotmpl", SkipOverwrite := true }, none)

/-- The error of reading the template of the spec file where it is missing. -/
def specMissing : Error :=
  ⟨"open /go/src/github.com/solo-io/autopilot/codegen/templates/code/spec.gotmpl" ++
    ": no such file or directory"⟩

/-! ## Lemmas on `strings.Split` -/

theorem splitOnChar_ne_nil (c : Char) (s : List Char) : splitOnChar c s ≠ [] := by
  induction s with
  | nil => simp [splitOnChar]
  | cons x xs ih =>
    unfold splitOnChar
    split
    · simp
    · split <;> simp

theorem splitOnChar_length (c : Char) (s : List Char) :
    (splitOnChar c s).length = s.count c + 1 := by
  induction s with
  | nil => simp [splitOnChar]
  | cons x xs ih =>
    unfold splitOnChar
    by_cases hx : x = c
    · subst hx
      simp [ih]
    · have hc : (x == c) = false := by simpa using hx
      rw [if_neg hx, List.count_cons, hc]
      cases hs : splitOnChar c xs with
      | nil => exact absurd hs (splitOnChar_ne_nil c xs)
      | cons p ps => simp [← ih, hs]

theorem intercalate_cons_cons (sep a b : List Char) (l : List (List Char)) :
    sep.intercalate (a :: b :: l) = a ++ sep ++ sep.intercalate (b :: l) := by
  simp [List.intercalate, List.intersperse]

theorem intercalate_splitOnChar (c : Char) (s : List Char) :
    [c].intercalate (splitOnChar c s) = s := by
  induction s with
  | nil => simp [splitOnChar, List.intercalate]
  | cons x xs ih =>
    unfold splitOnChar
    by_cases hx : x = c
    · subst hx
      rw [if_pos rfl]
      cases hs : splitOnChar x xs with
      | nil => exact absurd hs (splitOnChar_ne_nil x xs)
      | cons p ps =>
        rw [intercalate_cons_cons, ← hs, ih]; simp
    · rw [if_neg hx]
      cases hs : splitOnChar c xs with
      | nil => exact absurd hs (splitOnChar_ne_nil c xs)
      | cons p ps =>
        rw [hs] at ih
        cases ps with
        | nil => simp [List.intercalate] at ih ⊢; exact ih
        | cons q qs =>
          rw [intercalate_cons_cons] at ih ⊢
          simp [← ih]

theorem not_mem_of_mem_splitOnChar (c : Char) (s : List Char) :
    ∀ p ∈ splitOnChar c s, c ∉ p := by
  induction s with
  | nil => simp [splitOnChar]
  | cons x xs ih =>
    unfold splitOnChar
    by_cases hx : x = c
    · rw [if_pos hx]
      intro p hp
      rcases List.mem_cons.1 hp with h | h
      · simp [h]
      · exact ih p h
    · rw [if_neg hx]
      cases hs : splitOnChar c xs with
      | nil => exact absurd hs (splitOnChar_ne_nil c xs)
      | cons q qs =>
        rw [hs] at ih
        intro p hp
        rcases List.mem_cons.1 hp with h | h
        · subst h
          have := ih q (by simp)
          simp [this, Ne.symm hx]
        · exact ih p (by simp [h])



/-! ## Lemmas on `Load` -/

theorem Split_length (s : String) : (strings.Split s '/').length = slashes s + 1 := by
  simp [strings.Split, slashes, splitOnChar_length]

theorem ReadFile_world (w : World) (file : String) :
    (ioutil.ReadFile w file).2 = w.addReads [w.abs file] := by
  unfold ioutil.ReadFile World.addReads
  split
  · rfl
  · split <;> rfl

theorem Chdir_cwd (w : World) (dir : String) :
    (os.Chdir w dir).2.cwd = if (os.Chdir w dir).1 = none then w.abs dir else w.cwd := by
  unfold os.Chdir
  split <;> simp

/-- What `Load` does once the descriptor `doc` is read and decoded and the
    directory is entered: the check of the API version, and on success the
    allocation of the model and the loop over the phases. -/
theorem Load_of_reaches (env : Env) (w : World) (h : Heap) (file : String) (doc : Descriptor)
    (hr : LoadReaches env w file doc) :
    Load env w h file =
      if (strings.Split doc.ApiVersion '/').length ≠ 2 then
        ((none, some (formatError (strings.Split doc.ApiVersion '/'))),
          (os.Chdir (ioutil.ReadFile w file).2 (filepath.Dir file)).2,
          (h.allocArray doc.Phases).2)
      else
        ((some h.objects.length, none),
          (os.Chdir (ioutil.ReadFile w file).2 (filepath.Dir file)).2,
          bindPhases ⟨h.arrays.length⟩ h.objects.length (List.range doc.Phases.length)
            ((h.allocArray doc.Phases).2.allocData
              { Project := ⟨doc.ApiVersion, doc.Kind, ⟨h.arrays.length⟩⟩
                ProjectPackage :=
                  env.GetGoPkg (os.Chdir (ioutil.ReadFile w file).2 (filepath.Dir file)).2
                Group := (strings.Split doc.ApiVersion '/').getD 0 ""
                Version := (strings.Split doc.ApiVersion '/').getD 1 ""
                TypesImportPath := filepath.Join
                  [env.GetGoPkg (os.Chdir (ioutil.ReadFile w file).2 (filepath.Dir file)).2,
                    "pkg", "apis", env.ToLower (env.Plural doc.Kind),
                    (strings.Split doc.ApiVersion '/').getD 1 ""]
                SchedulerImportPath := filepath.Join
                  [env.GetGoPkg (os.Chdir (ioutil.ReadFile w file).2 (filepath.Dir file)).2,
                    "pkg", "scheduler"]
                ConfigImportPath := filepath.Join
                  [env.GetGoPkg (os.Chdir (ioutil.ReadFile w file).2 (filepath.Dir file)).2,
                    "pkg", "config"]
                KindLowerCamel := env.ToLowerCamel doc.Kind }).2) := by
  obtain ⟨projData, hread, hparse, hcd⟩ := hr
  unfold Load
  rcases hrf : ioutil.ReadFile w file with ⟨r, w1⟩
  rw [hrf] at hread hcd
  simp only at hread hcd
  subst hread
  simp only [hparse]
  rcases hc : os.Chdir w1 (filepath.Dir file) with ⟨e, w2⟩
  rw [hc] at hcd
  simp only at hcd
  subst hcd
  simp only [Heap.allocArray, Heap.allocData, Heap.phases]
  split
  · rfl
  · simp


/-! ## The loop that binds the phases -/

theorem set_take_map_drop {α : Type} (f : α → α) :
    ∀ (l : List α) (k : Nat) (x : α), l[k]? = some x →
      ((l.take k).map f ++ l.drop k).set k (f x) = (l.take (k + 1)).map f ++ l.drop (k + 1)
  | [], k, x, hx => by simp at hx
  | a :: l, 0, x, hx => by
    simp at hx
    simp [hx]
  | a :: l, k + 1, x, hx => by
    simp at hx
    simpa using set_take_map_drop f l k x hx

theorem getElem?_take_map_drop {α : Type} (f : α → α) :
    ∀ (l : List α) (k : Nat), ((l.take k).map f ++ l.drop k)[k]? = l[k]?
  | [], k => by simp
  | a :: l, 0 => by simp
  | a :: l, k + 1 => by simpa using getElem?_take_map_drop f l k

theorem bindPhases_range (a data : Nat) (H : Heap) (l : List Phase)
    (ha : H.arrays[a]? = some l) :
    ∀ k, k ≤ l.length →
      bindPhases ⟨a⟩ data (List.range k) H =
        { H with
          arrays := H.arrays.set a
            ((l.take k).map (fun ph => { ph with Project := some data }) ++ l.drop k) }
  | 0, _ => by
    have hlt : a < H.arrays.length := by
      rcases Nat.lt_or_ge a H.arrays.length with h | h
      · exact h
      · rw [List.getElem?_eq_none h] at ha; cases ha
    have : H.arrays.set a l = H.arrays := by
      apply List.ext_getElem?
      intro i
      by_cases hi : a = i
      · subst hi; simp [List.getElem?_set, hlt, ha]
      · simp [List.getElem?_set, hi]
    simp [bindPhases, this]
  | k + 1, hk => by
    have hlt : a < H.arrays.length := by
      rcases Nat.lt_or_ge a H.arrays.length with h | h
      · exact h
      · rw [List.getElem?_eq_none h] at ha; cases ha
    have ih := bindPhases_range a data H l ha k (Nat.le_of_succ_le hk)
    have hx : l[k]? = some l[k] := List.getElem?_eq_getElem hk
    unfold bindPhases at ih ⊢
    rw [List.range_succ, List.foldl_append, ih]
    simp only [List.foldl_cons, List.foldl_nil, Heap.index, Heap.phases, Heap.store]
    have hget : (H.arrays.set a
        ((l.take k).map (fun ph => { ph with Project := some data }) ++ l.drop k))[a]? =
        some ((l.take k).map (fun ph => { ph with Project := some data }) ++ l.drop k) := by
      simp [List.getElem?_set, hlt]
    rw [hget]
    simp only [Option.getD_some, getElem?_take_map_drop, hx, List.set_set]
    rw [set_take_map_drop _ l k l[k] hx]


/-! ## What `Load` returns -/

/-- The model stored by a successful `Load`. -/
theorem Load_success (env : Env) (w : World) (h : Heap) (file : String) (doc : Descriptor)
    (hr : LoadReaches env w file doc) (h2 : (strings.Split doc.ApiVersion '/').length = 2) :
    Load env w h file =
      ((some h.objects.length, none),
        (os.Chdir (ioutil.ReadFile w file).2 (filepath.Dir file)).2,
        { arrays := h.arrays ++
            [doc.Phases.map (fun ph => { ph with Project := some h.objects.length })]
          objects := h.objects ++
            [{ Project := ⟨doc.ApiVersion, doc.Kind, ⟨h.arrays.length⟩⟩
               ProjectPackage :=
                 env.GetGoPkg (os.Chdir (ioutil.ReadFile w file).2 (filepath.Dir file)).2
               Group := (strings.Split doc.ApiVersion '/').getD 0 ""
               Version := (strings.Split doc.ApiVersion '/').getD 1 ""
               TypesImportPath := filepath.Join
                 [env.GetGoPkg (os.Chdir (ioutil.ReadFile w file).2 (filepath.Dir file)).2,
                   "pkg", "apis", env.ToLower (env.Plural doc.Kind),
                   (strings.Split doc.ApiVersion '/').getD 1 ""]
               SchedulerImportPath := filepath.Join
                 [env.GetGoPkg (os.Chdir (ioutil.ReadFile w file).2 (filepath.Dir file)).2,
                   "pkg", "scheduler"]
               ConfigImportPath := filepath.Join
                 [env.GetGoPkg (os.Chdir (ioutil.ReadFile w file).2 (filepath.Dir file)).2,
                   "pkg", "config"]
               KindLowerCamel := env.ToLowerCamel doc.Kind }] }) := by
  rw [Load_of_reaches env w h file doc hr, if_neg (by simp [h2])]
  rw [bindPhases_range h.arrays.length h.objects.length _ doc.Phases
    (by simp [Heap.allocArray, Heap.allocData]) doc.Phases.length (Nat.le_refl _)]
  simp [Heap.allocArray, Heap.allocData]

/-- The error returned by `Load` for an API version that is not two segments. -/
theorem Load_failure (env : Env) (w : World) (h : Heap) (file : String) (doc : Descriptor)
    (hr : LoadReaches env w file doc) (h2 : (strings.Split doc.ApiVersion '/').length ≠ 2) :
    Load env w h file =
      ((none, some (formatError (strings.Split doc.ApiVersion '/'))),
        (os.Chdir (ioutil.ReadFile w file).2 (filepath.Dir file)).2,
        (h.allocArray doc.Phases).2) := by
  rw [Load_of_reaches env w h file doc hr, if_pos h2]

/-- Without a descriptor that is read, decoded and whose directory is entered,
    `Load` returns an error and leaves the working directory and the heap
    alone. -/
theorem Load_not_reaches (env : Env) (w : World) (h : Heap) (file : String)
    (hn : ¬ ∃ doc, LoadReaches env w file doc) :
    (Load env w h file).1.1 = none ∧ (Load env w h file).1.2 ≠ none ∧
      (Load env w h file).2.1.cwd = w.cwd ∧ (Load env w h file).2.2.objects = h.objects := by
  unfold Load
  rcases hrf : ioutil.ReadFile w file with ⟨r, w1⟩
  have hw1 : w1.cwd = w.cwd := by
    have := ReadFile_world w file
    rw [hrf] at this
    simp only at this
    rw [this]; rfl
  cases r with
  | error e => simp [hw1]
  | ok projData =>
    simp only
    cases hp : env.Unmarshal projData with
    | error e => simp [hw1]
    | ok doc =>
      simp only
      rcases hc : os.Chdir w1 (filepath.Dir file) with ⟨e, w2⟩
      cases e with
      | none =>
        exact absurd ⟨doc, projData, by rw [hrf], hp, by rw [hrf]; simp [hc]⟩ hn
      | some e =>
        have h2 := Chdir_cwd w1 (filepath.Dir file)
        rw [hc] at h2
        simp at h2
        simp [h2, hw1, Heap.allocArray]

/-- A `Load` that returns a model has read and decoded a descriptor whose API
    version has two segments. -/
theorem reaches_of_Load_some (env : Env) (w : World) (h : Heap) (file : String) (p : Nat)
    (hp : (Load env w h file).1.1 = some p) :
    ∃ doc, LoadReaches env w file doc ∧ (strings.Split doc.ApiVersion '/').length = 2 := by
  by_cases hex : ∃ doc, LoadReaches env w file doc
  · obtain ⟨doc, hr⟩ := hex
    refine ⟨doc, hr, ?_⟩
    by_contra h2
    rw [Load_failure env w h file doc hr h2] at hp
    cases hp
  · rw [(Load_not_reaches env w h file hex).1] at hp
    cases hp

/-- The two segments of an API version with one `/`. -/
theorem Split_two (s : String) (h2 : (strings.Split s '/').length = 2) :
    (strings.Split s '/').getD 0 "" ++ "/" ++ (strings.Split s '/').getD 1 "" = s ∧
      '/' ∉ ((strings.Split s '/').getD 0 "").data ∧
      '/' ∉ ((strings.Split s '/').getD 1 "").data := by
  unfold strings.Split at h2 ⊢
  have hj := intercalate_splitOnChar '/' s.data
  have hn := not_mem_of_mem_splitOnChar '/' s.data
  rcases hs : splitOnChar '/' s.data with _ | ⟨a, _ | ⟨b, _ | ⟨c, r⟩⟩⟩
  · simp [hs] at h2
  · simp [hs] at h2
  · rw [hs] at hj hn
    refine ⟨?_, ?_, ?_⟩
    · apply String.ext
      simp [← hj, List.intercalate]
    · simpa using hn a (by simp)
    · simpa using hn b (by simp)
  · simp [hs] at h2


/-- The model a successful `Load` returns, read back from the heap. -/
theorem Load_model (env : Env) (w : World) (h : Heap) (file : String) (doc : Descriptor)
    (hr : LoadReaches env w file doc) (h2 : (strings.Split doc.ApiVersion '/').length = 2) :
    ∃ model, (Load env w h file).1 = (some h.objects.length, none) ∧
      (Load env w h file).2.2.deref h.objects.length = some model ∧
      (Load env w h file).2.2.phases model.Project.Phases =
        doc.Phases.map (fun ph => { ph with Project := some h.objects.length }) ∧
      model.Project.ApiVersion = doc.ApiVersion ∧ model.Project.Kind = doc.Kind ∧
      model.ProjectPackage = env.GetGoPkg (Load env w h file).2.1 ∧
      model.Group = (strings.Split doc.ApiVersion '/').getD 0 "" ∧
      model.Version = (strings.Split doc.ApiVersion '/').getD 1 "" ∧
      model.TypesImportPath = filepath.Join
        [model.ProjectPackage, "pkg", "apis", env.ToLower (env.Plural model.Project.Kind),
          model.Version] ∧
      model.SchedulerImportPath = filepath.Join [model.ProjectPackage, "pkg", "scheduler"] ∧
      model.ConfigImportPath = filepath.Join [model.ProjectPackage, "pkg", "config"] ∧
      model.KindLowerCamel = env.ToLowerCamel model.Project.Kind := by
  rw [Load_success env w h file doc hr h2]
  simp [Heap.deref, Heap.phases]

/-! ## The claims on `Load` -/

/-- C1: once the descriptor is read and decoded and the directory is entered,
    `Load` returns a nil model and a non-nil error when the API version does
    not contain exactly one `/`, and a model and no error when it does. -/
theorem Load_apiVersion_validation (env : Env) (w : World) (h : Heap) (file : String)
    (doc : Descriptor) (hr : LoadReaches env w file doc) :
    (slashes doc.ApiVersion ≠ 1 →
        (Load env w h file).1.1 = none ∧ ∃ err, (Load env w h file).1.2 = some err) ∧
    (slashes doc.ApiVersion = 1 →
        (∃ data model, (Load env w h file).1.1 = some data ∧
          (Load env w h file).2.2.deref data = some model) ∧
        (Load env w h file).1.2 = none) := by
  constructor
  · intro hs
    have h2 : (strings.Split doc.ApiVersion '/').length ≠ 2 := by
      rw [Split_length]; omega
    rw [Load_failure env w h file doc hr h2]
    exact ⟨rfl, _, rfl⟩
  · intro hs
    have h2 : (strings.Split doc.ApiVersion '/').length = 2 := by
      rw [Split_length]; omega
    obtain ⟨model, hl, hd, _⟩ := Load_model env w h file doc hr h2
    exact ⟨⟨_, model, by rw [hl], hd⟩, by rw [hl]⟩


/-- The sample descriptor `badformat` is read and decoded and its directory is
    entered. -/
theorem sample_reaches_badformat :
    LoadReaches sampleEnv (sampleWorld "badformat") sampleFile ⟨"badformat", "Widget", []⟩ :=
  ⟨"badformat", by decide, by decide, by decide⟩

/-- The sample descriptor `no-group` is read and decoded and its directory is
    entered. -/
theorem sample_reaches_no_group :
    LoadReaches sampleEnv (sampleWorld "no-group") sampleFile ⟨"/v1", "Widget", []⟩ :=
  ⟨"no-group", by decide, by decide, by decide⟩

/-- C1 at the descriptor with API version `badformat`. -/
theorem Load_apiVersion_validation_witness :
    LoadReaches sampleEnv (sampleWorld "badformat") sampleFile ⟨"badformat", "Widget", []⟩ ∧
    ((slashes "badformat" ≠ 1 →
        (Load sampleEnv (sampleWorld "badformat") emptyHeap sampleFile).1.1 = none ∧
        ∃ err, (Load sampleEnv (sampleWorld "badformat") emptyHeap sampleFile).1.2 = some err) ∧
     (slashes "badformat" = 1 →
        (∃ data model,
          (Load sampleEnv (sampleWorld "badformat") emptyHeap sampleFile).1.1 = some data ∧
          (Load sampleEnv (sampleWorld "badformat") emptyHeap sampleFile).2.2.deref data =
            some model) ∧
        (Load sampleEnv (sampleWorld "badformat") emptyHeap sampleFile).1.2 = none)) :=
  ⟨sample_reaches_badformat,
    Load_apiVersion_validation sampleEnv (sampleWorld "badformat") emptyHeap sampleFile
      ⟨"badformat", "Widget", []⟩ sample_reaches_badformat⟩

/-- C2, as stated, fails: the API version `/v1` splits into an empty group and
    the version `v1`, and `Load` returns a model (at address 0, with the empty
    group) and no error. -/
theorem Load_accepts_empty_group :
    sampleEnv.Unmarshal "no-group" = .ok ⟨"/v1", "Widget", []⟩ ∧
    strings.Split "/v1" '/' = ["", "v1"] ∧
    (Load sampleEnv (sampleWorld "no-group") emptyHeap sampleFile).1 = (some 0, none) ∧
    ((Load sampleEnv (sampleWorld "no-group") emptyHeap sampleFile).2.2.deref 0).map
      (fun model => (model.Group, model.Version)) = some ("", "v1") := by
  decide

/-- C2, amended: once the descriptor is read and decoded and the directory is
    entered, `Load` accepts every API version of exactly two segments, empty
    or not, and the model has these segments as `Group` and `Version`; it
    returns no model exactly when the number of segments is not two. -/
theorem Load_two_segments (env : Env) (w : World) (h : Heap) (file : String)
    (doc : Descriptor) (hr : LoadReaches env w file doc) :
    (∀ g v, strings.Split doc.ApiVersion '/' = [g, v] →
        ∃ data model, (Load env w h file).1 = (some data, none) ∧
          (Load env w h file).2.2.deref data = some model ∧
          model.Group = g ∧ model.Version = v) ∧
    ((Load env w h file).1.1 = none ↔ (strings.Split doc.ApiVersion '/').length ≠ 2) := by
  constructor
  · intro g v hgv
    obtain ⟨model, hl, hd, _, _, _, _, hg, hv, _⟩ :=
      Load_model env w h file doc hr (by rw [hgv]; rfl)
    refine ⟨_, model, hl, hd, ?_, ?_⟩
    · rw [hg, hgv]; rfl
    · rw [hv, hgv]; rfl
  · constructor
    · intro hn h2
      obtain ⟨model, hl, _⟩ := Load_model env w h file doc hr h2
      rw [hl] at hn
      cases hn
    · intro h2
      rw [Load_failure env w h file doc hr h2]

/-- C2, amended, at the descriptor with API version `/v1`. -/
theorem Load_two_segments_witness :
    LoadReaches sampleEnv (sampleWorld "no-group") sampleFile ⟨"/v1", "Widget", []⟩ ∧
    ((∀ g v, strings.Split "/v1" '/' = [g, v] →
        ∃ data model,
          (Load sampleEnv (sampleWorld "no-group") emptyHeap sampleFile).1 = (some data, none) ∧
          (Load sampleEnv (sampleWorld "no-group") emptyHeap sampleFile).2.2.deref data =
            some model ∧
          model.Group = g ∧ model.Version = v) ∧
     ((Load sampleEnv (sampleWorld "no-group") emptyHeap sampleFile).1.1 = none ↔
        (strings.Split "/v1" '/').length ≠ 2)) :=
  ⟨sample_reaches_no_group,
    Load_two_segments sampleEnv (sampleWorld "no-group") emptyHeap sampleFile
      ⟨"/v1", "Widget", []⟩ sample_reaches_no_group⟩

/-- C8, as stated, fails: `Load` of a descriptor in another directory leaves
    the process in that directory, here on the failure for the API version
    `badformat`. -/
theorem Load_changes_working_directory :
    (sampleWorld "badformat").cwd = "/home/dev" ∧
    (Load sampleEnv (sampleWorld "badformat") emptyHeap sampleFile).1 =
      (none, some ⟨"[badformat] must be format groupname/version"⟩) ∧
    (Load sampleEnv (sampleWorld "badformat") emptyHeap sampleFile).2.1.cwd =
      "/go/src/example.com/widget" := by
  decide

/-- C8, amended: after `Load(file)` the working directory is the directory of
    `file` whenever the descriptor was read and decoded and the change of
    directory succeeded, whether `Load` then accepts the API version or not;
    otherwise it is the working directory before the call. -/
theorem Load_working_directory (env : Env) (w : World) (h : Heap) (file : String) :
    (∀ doc, LoadReaches env w file doc →
        (Load env w h file).2.1.cwd = w.abs (filepath.Dir file)) ∧
    ((¬ ∃ doc, LoadReaches env w file doc) → (Load env w h file).2.1.cwd = w.cwd) := by
  constructor
  · intro doc hr
    have hcwd : (Load env w h file).2.1.cwd =
        (os.Chdir (ioutil.ReadFile w file).2 (filepath.Dir file)).2.cwd := by
      by_cases h2 : (strings.Split doc.ApiVersion '/').length = 2
      · rw [Load_success env w h file doc hr h2]
      · rw [Load_failure env w h file doc hr h2]
    obtain ⟨_, _, _, hc⟩ := hr
    rw [hcwd, Chdir_cwd, if_pos hc, ReadFile_world]
    rfl
  · intro hn
    exact (Load_not_reaches env w h file hn).2.2.1

/-- C8, amended, at the descriptor with API version `badformat`. -/
theorem Load_working_directory_witness :
    (∀ doc, LoadReaches sampleEnv (sampleWorld "badformat") sampleFile doc →
        (Load sampleEnv (sampleWorld "badformat") emptyHeap sampleFile).2.1.cwd =
          (sampleWorld "badformat").abs (filepath.Dir sampleFile)) ∧
    ((¬ ∃ doc, LoadReaches sampleEnv (sampleWorld "badformat") sampleFile doc) →
        (Load sampleEnv (sampleWorld "badformat") emptyHeap sampleFile).2.1.cwd =
          (sampleWorld "badformat").cwd) :=
  Load_working_directory sampleEnv (sampleWorld "badformat") emptyHeap sampleFile

/-- C9: in the heap left by a successful `Load`, the phases reached through
    the model are the phases of the descriptor, in their order and with name,
    inputs and outputs unchanged, each with the returned model as `Project`. -/
theorem Load_binds_phases (env : Env) (w : World) (h : Heap) (file : String) (data : Nat)
    (hl : (Load env w h file).1.1 = some data) :
    ∃ doc model, LoadReaches env w file doc ∧
      (Load env w h file).2.2.deref data = some model ∧
      (Load env w h file).2.2.phases model.Project.Phases =
        doc.Phases.map (fun ph => { ph with Project := some data }) ∧
      ∀ ph ∈ (Load env w h file).2.2.phases model.Project.Phases, ph.Project = some data := by
  obtain ⟨doc, hr, h2⟩ := reaches_of_Load_some env w h file data hl
  obtain ⟨model, hl', hd, hph, _⟩ := Load_model env w h file doc hr h2
  have hdata : data = h.objects.length := by
    rw [hl'] at hl
    exact (Option.some.inj hl).symm
  subst hdata
  refine ⟨doc, model, hr, hd, hph, ?_⟩
  intro ph hmem
  rw [hph] at hmem
  obtain ⟨q, _, hq⟩ := List.mem_map.1 hmem
  rw [← hq]

/-- C9 at the sample descriptor with the phases `Init`, `Sync` and `Done`. -/
theorem Load_binds_phases_witness :
    (Load sampleEnv (sampleWorld "widget-mixed") emptyHeap sampleFile).1.1 = some 0 ∧
    ∃ doc model, LoadReaches sampleEnv (sampleWorld "widget-mixed") sampleFile doc ∧
      (Load sampleEnv (sampleWorld "widget-mixed") emptyHeap sampleFile).2.2.deref 0 =
        some model ∧
      (Load sampleEnv (sampleWorld "widget-mixed") emptyHeap sampleFile).2.2.phases
          model.Project.Phases =
        doc.Phases.map (fun ph => { ph with Project := some 0 }) ∧
      ∀ ph ∈ (Load sampleEnv (sampleWorld "widget-mixed") emptyHeap sampleFile).2.2.phases
          model.Project.Phases, ph.Project = some 0 :=
  ⟨by decide,
    Load_binds_phases sampleEnv (sampleWorld "widget-mixed") emptyHeap sampleFile 0 (by decide)⟩

/-- C10: for a descriptor that `Load` accepts, `Group`, `/` and `Version` of
    the model make up the API version of the descriptor, which the model
    keeps, and neither `Group` nor `Version` contains a `/`. -/
theorem Load_group_version_roundtrip (env : Env) (w : World) (h : Heap) (file : String)
    (data : Nat) (hl : (Load env w h file).1.1 = some data) :
    ∃ doc model, LoadReaches env w file doc ∧
      (Load env w h file).2.2.deref data = some model ∧
      model.Project.ApiVersion = doc.ApiVersion ∧
      model.Group ++ "/" ++ model.Version = doc.ApiVersion ∧
      '/' ∉ model.Group.data ∧ '/' ∉ model.Version.data := by
  obtain ⟨doc, hr, h2⟩ := reaches_of_Load_some env w h file data hl
  obtain ⟨model, hl', hd, _, hav, _, _, hg, hv, _⟩ := Load_model env w h file doc hr h2
  have hdata : data = h.objects.length := by
    rw [hl'] at hl
    exact (Option.some.inj hl).symm
  subst hdata
  refine ⟨doc, model, hr, hd, hav, ?_⟩
  rw [hg, hv]
  exact Split_two doc.ApiVersion h2

/-- C10 at the sample descriptor with API version `apps.example.com/v1`. -/
theorem Load_group_version_roundtrip_witness :
    (Load sampleEnv (sampleWorld "widget-build") emptyHeap sampleFile).1.1 = some 0 ∧
    ∃ doc model, LoadReaches sampleEnv (sampleWorld "widget-build") sampleFile doc ∧
      (Load sampleEnv (sampleWorld "widget-build") emptyHeap sampleFile).2.2.deref 0 =
        some model ∧
      model.Project.ApiVersion = doc.ApiVersion ∧
      model.Group ++ "/" ++ model.Version = doc.ApiVersion ∧
      '/' ∉ model.Group.data ∧ '/' ∉ model.Version.data :=
  ⟨by decide,
    Load_group_version_roundtrip sampleEnv (sampleWorld "widget-build") emptyHeap sampleFile 0
      (by decide)⟩


/-! ## Lemmas on rendering -/

theorem addReads_nil (w : World) : w.addReads [] = w := by
  cases w
  simp [World.addReads]

theorem ReadFile_addReads (w : World) (ps : List String) (file : String) :
    ioutil.ReadFile (w.addReads ps) file =
      ((ioutil.ReadFile w file).1, w.addReads (ps ++ [w.abs file])) := by
  unfold ioutil.ReadFile
  simp only [World.addReads, World.abs, List.append_assoc]
  split
  · rfl
  · split <;> rfl

theorem renderProjectFile_addReads (env : Env) (w : World) (h : Heap) (data : TemplateData)
    (ps : List String) (t : String) :
    renderProjectFile env (w.addReads ps) h data t =
      ((renderProjectFile env w h data t).1, w.addReads (ps ++ [templateSource w t])) := by
  have hroot : autopilotRoot (w.addReads ps) = autopilotRoot w := rfl
  unfold renderProjectFile templateSource
  simp only [hroot, ReadFile_addReads]
  rcases ioutil.ReadFile w (filepath.Join [autopilotRoot w, "codegen", "templates", t]) with
    ⟨r, w1⟩
  cases r with
  | error e => rfl
  | ok content =>
    simp only
    cases env.Parse h data t content with
    | some e => rfl
    | none =>
      simp only
      cases env.Execute h data t content (.model data) <;> rfl

theorem renderWorkerFile_addReads (env : Env) (w : World) (h : Heap) (data : TemplateData)
    (phase : Phase) (ps : List String) (t : String) :
    renderWorkerFile env (w.addReads ps) h data phase t =
      ((renderWorkerFile env w h data phase t).1, w.addReads (ps ++ [templateSource w t])) := by
  have hroot : autopilotRoot (w.addReads ps) = autopilotRoot w := rfl
  unfold renderWorkerFile templateSource
  simp only [hroot, ReadFile_addReads]
  rcases ioutil.ReadFile w (filepath.Join [autopilotRoot w, "codegen", "templates", t]) with
    ⟨r, w1⟩
  cases r with
  | error e => rfl
  | ok content =>
    simp only
    cases env.Parse h data t content with
    | some e => rfl
    | none =>
      simp only
      cases env.Execute h data t content (.phase phase) <;> rfl

theorem renderPlanned_addReads (env : Env) (w : World) (h : Heap) (data : TemplateData)
    (ps : List String) (x : Planned) :
    renderPlanned env (w.addReads ps) h data x =
      ((renderPlanned env w h data x).1,
        w.addReads (ps ++ [templateSource w x.1.TemplatePath])) := by
  unfold renderPlanned
  cases x.2 with
  | none => exact renderProjectFile_addReads env w h data ps _
  | some phase => exact renderWorkerFile_addReads env w h data phase ps _

theorem renderProjectFile_executes (env : Env) (w : World) (h : Heap) (data : TemplateData)
    (t : String) (hok : (renderProjectFile env w h data t).1.2 = none) :
    ∃ text, (ioutil.ReadFile w
        (filepath.Join [autopilotRoot w, "codegen", "templates", t])).1 = .ok text ∧
      env.Execute h data t text (.model data) = .ok (renderProjectFile env w h data t).1.1 := by
  unfold renderProjectFile at hok ⊢
  simp only at hok ⊢
  generalize ioutil.ReadFile w (filepath.Join [autopilotRoot w, "codegen", "templates", t]) = rf
    at hok ⊢
  rcases rf with ⟨r, w1⟩
  cases r with
  | error e => simp at hok
  | ok content =>
    simp only at hok ⊢
    cases hp : env.Parse h data t content with
    | some e => simp [hp] at hok
    | none =>
      simp only [hp] at hok ⊢
      cases he : env.Execute h data t content (.model data) with
      | error e => simp [he] at hok
      | ok out => exact ⟨content, rfl, by simp [he]⟩

theorem renderWorkerFile_executes (env : Env) (w : World) (h : Heap) (data : TemplateData)
    (phase : Phase) (t : String) (hok : (renderWorkerFile env w h data phase t).1.2 = none) :
    ∃ text, (ioutil.ReadFile w
        (filepath.Join [autopilotRoot w, "codegen", "templates", t])).1 = .ok text ∧
      env.Execute h data t text (.phase phase) =
        .ok (renderWorkerFile env w h data phase t).1.1 := by
  unfold renderWorkerFile at hok ⊢
  simp only at hok ⊢
  generalize ioutil.ReadFile w (filepath.Join [autopilotRoot w, "codegen", "templates", t]) = rf
    at hok ⊢
  rcases rf with ⟨r, w1⟩
  cases r with
  | error e => simp at hok
  | ok content =>
    simp only at hok ⊢
    cases hp : env.Parse h data t content with
    | some e => simp [hp] at hok
    | none =>
      simp only [hp] at hok ⊢
      cases he : env.Execute h data t content (.phase phase) with
      | error e => simp [he] at hok
      | ok out => exact ⟨content, rfl, by simp [he]⟩

/-! ## The loops of `Generate` -/

theorem generateProjectLoop_eq (env : Env) (h : Heap) (data : TemplateData) :
    ∀ (fs : List GenFile) (files : Option (List GenFile)) (w : World),
      generateProjectLoop env h data fs files w =
        renderPlan env h data (fs.map (fun f => (f, none))) files w
  | [], files, w => rfl
  | f :: fs, files, w => by
    simp only [generateProjectLoop, List.map_cons, renderPlan, renderPlanned]
    rcases renderProjectFile env w h data f.TemplatePath with ⟨⟨c, e⟩, w1⟩
    cases e with
    | some err => rfl
    | none => exact generateProjectLoop_eq env h data fs _ w1

theorem generatePhaseLoop_eq (env : Env) (h : Heap) (data : TemplateData) (phase : Phase) :
    ∀ (fs : List GenFile) (files : Option (List GenFile)) (w : World),
      generatePhaseLoop env h data phase fs files w =
        renderPlan env h data (fs.map (fun f => (f, some phase))) files w
  | [], files, w => rfl
  | f :: fs, files, w => by
    simp only [generatePhaseLoop, List.map_cons, renderPlan, renderPlanned]
    rcases renderWorkerFile env w h data phase f.TemplatePath with ⟨⟨c, e⟩, w1⟩
    cases e with
    | some err => rfl
    | none => exact generatePhaseLoop_eq env h data phase fs _ w1

theorem renderPlan_append (env : Env) (h : Heap) (data : TemplateData) :
    ∀ (l₁ l₂ : List Planned) (files : Option (List GenFile)) (w : World),
      renderPlan env h data (l₁ ++ l₂) files w =
        match renderPlan env h data l₁ files w with
        | (.error err, w) => (.error err, w)
        | (.ok files, w) => renderPlan env h data l₂ files w
  | [], l₂, files, w => rfl
  | x :: l₁, l₂, files, w => by
    simp only [List.cons_append, renderPlan]
    rcases renderPlanned env w h data x with ⟨⟨c, e⟩, w1⟩
    cases e with
    | some err => rfl
    | none => exact renderPlan_append env h data l₁ l₂ _ w1

theorem generatePhasesLoop_eq (env : Env) (h : Heap) (data : TemplateData) :
    ∀ (phases : List Phase) (files : Option (List GenFile)) (w : World),
      generatePhasesLoop env h data phases files w =
        renderPlan env h data
          ((eligible phases).flatMap
            (fun phase => (phaseFiles env data phase).map (fun f => (f, some phase)))) files w
  | [], files, w => rfl
  | phase :: phases, files, w => by
    unfold generatePhasesLoop eligible
    by_cases hel : (hasInputs phase || hasOutputs phase) = true
    · have hf : List.filter (fun ph => hasInputs ph || hasOutputs ph) (phase :: phases) =
          phase :: List.filter (fun ph => hasInputs ph || hasOutputs ph) phases := by
        simp [List.filter_cons, hel]
      rw [if_pos hel, hf, List.flatMap_cons, renderPlan_append, generatePhaseLoop_eq]
      rcases renderPlan env h data
        ((phaseFiles env data phase).map (fun f => (f, some phase))) files w with ⟨r, w1⟩
      cases r with
      | error err => rfl
      | ok files1 => exact generatePhasesLoop_eq env h data phases files1 w1
    · have hf : List.filter (fun ph => hasInputs ph || hasOutputs ph) (phase :: phases) =
          List.filter (fun ph => hasInputs ph || hasOutputs ph) phases := by
        simp [List.filter_cons, hel]
      rw [if_neg hel, hf]
      exact generatePhasesLoop_eq env h data phases files w

/-- `Generate` renders the plan. -/
theorem Generate_eq (env : Env) (w : World) (h : Heap) (data : TemplateData) :
    Generate env w h data =
      match renderPlan env h data (plan env h data) none w with
      | (.error err, w) => ((none, some err), w)
      | (.ok files, w) => ((files, none), w) := by
  unfold Generate plan
  rw [renderPlan_append, generateProjectLoop_eq]
  rcases renderPlan env h data ((projectFiles data).map (fun f => (f, none))) none w with
    ⟨r, w1⟩
  cases r with
  | error err => rfl
  | ok files1 => simp only [generatePhasesLoop_eq]

/-- The slice after appending the elements of `l` one by one. -/
theorem foldl_goAppend (l : List GenFile) :
    ∀ files : Option (List GenFile),
      l.foldl goAppend files = if l = [] then files else some (files.getD [] ++ l) := by
  induction l with
  | nil => intro files; rfl
  | cons f l ih =>
    intro files
    rw [List.foldl_cons, ih]
    by_cases hl : l = []
    · simp [hl, goAppend]
    · simp [hl, goAppend]

theorem renderPlan_ok (env : Env) (w : World) (h : Heap) (data : TemplateData) :
    ∀ (l : List Planned) (files : Option (List GenFile)) (ps : List String),
      (∀ x ∈ l, (renderPlanned env w h data x).1.2 = none) →
      renderPlan env h data l files (w.addReads ps) =
        (.ok ((l.map (filled env w h data)).foldl goAppend files),
          w.addReads (ps ++ l.map (fun x => templateSource w x.1.TemplatePath)))
  | [], files, ps, _ => by simp [renderPlan]
  | x :: l, files, ps, hok => by
    have hx := hok x (by simp)
    simp only [renderPlan, renderPlanned_addReads]
    rcases hr : renderPlanned env w h data x with ⟨⟨c, e⟩, w1⟩
    rw [hr] at hx
    simp only at hx
    subst hx
    simp only
    rw [renderPlan_ok env w h data l _ _ (fun y hy => hok y (by simp [hy]))]
    simp [filled, hr]

theorem renderPlan_fail (env : Env) (w : World) (h : Heap) (data : TemplateData)
    (x : Planned) (post : List Planned) (err : Error)
    (hx : (renderPlanned env w h data x).1.2 = some err) :
    ∀ (pre : List Planned) (files : Option (List GenFile)) (ps : List String),
      (∀ y ∈ pre, (renderPlanned env w h data y).1.2 = none) →
      renderPlan env h data (pre ++ x :: post) files (w.addReads ps) =
        (.error err,
          w.addReads (ps ++ (pre ++ [x]).map (fun y => templateSource w y.1.TemplatePath)))
  | [], files, ps, _ => by
    simp only [List.nil_append, renderPlan, renderPlanned_addReads]
    rcases hr : renderPlanned env w h data x with ⟨⟨c, e⟩, w1⟩
    rw [hr] at hx
    simp only at hx
    subst hx
    simp
  | y :: pre, files, ps, hok => by
    have hy := hok y (by simp)
    simp only [List.cons_append, renderPlan, renderPlanned_addReads, List.append_eq]
    rcases hr : renderPlanned env w h data y with ⟨⟨c, e⟩, w1⟩
    rw [hr] at hy
    simp only at hy
    subst hy
    simp only
    rw [renderPlan_fail env w h data x post err hx pre _ _ (fun z hz => hok z (by simp [hz]))]
    simp

/-! ## What `Generate` returns -/

theorem mem_plan (env : Env) (h : Heap) (data : TemplateData) (x : Planned) :
    x ∈ plan env h data ↔
      (x.1 ∈ projectFiles data ∧ x.2 = none) ∨
      ∃ phase ∈ h.phases data.Project.Phases, (hasInputs phase || hasOutputs phase) = true ∧
        x.1 ∈ phaseFiles env data phase ∧ x.2 = some phase := by
  obtain ⟨f, o⟩ := x
  simp only [plan, eligible, List.mem_append, List.mem_map, List.mem_flatMap, List.mem_filter,
    Prod.mk.injEq]
  constructor
  · rintro (⟨g, hg, rfl, rfl⟩ | ⟨phase, ⟨hp, hel⟩, g, hg, rfl, rfl⟩)
    · exact Or.inl ⟨hg, rfl⟩
    · exact Or.inr ⟨phase, hp, hel, hg, rfl⟩
  · rintro (⟨hg, rfl⟩ | ⟨phase, hp, hel, hg, rfl⟩)
    · exact Or.inl ⟨f, hg, rfl, rfl⟩
    · exact Or.inr ⟨phase, ⟨hp, hel⟩, f, hg, rfl, rfl⟩

theorem plan_ok_iff (env : Env) (w : World) (h : Heap) (data : TemplateData) :
    (∀ x ∈ plan env h data, (renderPlanned env w h data x).1.2 = none) ↔
      RendersSucceed env w h data := by
  constructor
  · intro hok
    constructor
    · intro f hf
      exact hok (f, none) ((mem_plan env h data _).2 (Or.inl ⟨hf, rfl⟩))
    · intro phase hp hel f hf
      exact hok (f, some phase) ((mem_plan env h data _).2 (Or.inr ⟨phase, hp, hel, hf, rfl⟩))
  · rintro ⟨hproj, hph⟩ ⟨f, o⟩ hx
    rcases (mem_plan env h data _).1 hx with ⟨hf, ho⟩ | ⟨phase, hp, hel, hf, ho⟩
    · simp only at ho hf
      subst ho
      exact hproj f hf
    · simp only at ho hf
      subst ho
      exact hph phase hp hel f hf

theorem plan_length (env : Env) (h : Heap) (data : TemplateData) :
    (plan env h data).length = 11 + 2 * (eligible (h.phases data.Project.Phases)).length := by
  have hsum : ∀ l : List Phase,
      (l.flatMap (fun phase =>
        (phaseFiles env data phase).map (fun f => ((f, some phase) : Planned)))).length =
        2 * l.length := by
    intro l
    induction l with
    | nil => rfl
    | cons a l ih =>
      rw [List.flatMap_cons, List.length_append, ih]
      simp [phaseFiles]
      omega
  rw [plan, List.length_append, hsum]
  simp [projectFiles]

theorem Generate_ok (env : Env) (w : World) (h : Heap) (data : TemplateData)
    (hok : ∀ x ∈ plan env h data, (renderPlanned env w h data x).1.2 = none) :
    Generate env w h data =
      ((some ((plan env h data).map (filled env w h data)), none),
        w.addReads ((plan env h data).map (fun x => templateSource w x.1.TemplatePath))) := by
  have hr := renderPlan_ok env w h data (plan env h data) none [] hok
  rw [addReads_nil] at hr
  have hne : (plan env h data).map (filled env w h data) ≠ [] := by
    intro hnil
    have hlen := plan_length env h data
    rw [List.map_eq_nil_iff] at hnil
    rw [hnil] at hlen
    simp only [List.length_nil] at hlen
    omega
  rw [Generate_eq, hr, foldl_goAppend, if_neg hne]
  simp

theorem Generate_fail (env : Env) (w : World) (h : Heap) (data : TemplateData)
    (pre : List Planned) (x : Planned) (post : List Planned) (err : Error)
    (hplan : plan env h data = pre ++ x :: post)
    (hpre : ∀ y ∈ pre, (renderPlanned env w h data y).1.2 = none)
    (hx : (renderPlanned env w h data x).1.2 = some err) :
    Generate env w h data =
      ((none, some err),
        w.addReads ((pre ++ [x]).map (fun y => templateSource w y.1.TemplatePath))) := by
  have hr := renderPlan_fail env w h data x post err hx pre none [] hpre
  rw [addReads_nil] at hr
  rw [Generate_eq, hplan, hr]
  simp

theorem exists_first_failure {α : Type} (P : α → Prop) :
    ∀ l : List α, (¬ ∀ x ∈ l, P x) →
      ∃ pre x post, l = pre ++ x :: post ∧ (∀ y ∈ pre, P y) ∧ ¬ P x
  | [], hn => absurd (fun _ hx => by cases hx) hn
  | a :: l, hn => by
    by_cases ha : P a
    · have hl : ¬ ∀ x ∈ l, P x := by
        intro hall
        apply hn
        intro x hx
        rcases List.mem_cons.1 hx with rfl | hx
        · exact ha
        · exact hall x hx
      obtain ⟨pre, x, post, hl, hpre, hx⟩ := exists_first_failure P l hl
      refine ⟨a :: pre, x, post, by rw [hl]; rfl, ?_, hx⟩
      intro y hy
      rcases List.mem_cons.1 hy with rfl | hy
      · exact ha
      · exact hpre y hy
    · exact ⟨[], a, l, rfl, by simp, ha⟩

/-- A list returned by `Generate` is the plan with every render successful. -/
theorem Generate_some (env : Env) (w : World) (h : Heap) (data : TemplateData)
    (files : List GenFile) (hs : (Generate env w h data).1.1 = some files) :
    (∀ x ∈ plan env h data, (renderPlanned env w h data x).1.2 = none) ∧
      files = (plan env h data).map (filled env w h data) := by
  by_cases hok : ∀ x ∈ plan env h data, (renderPlanned env w h data x).1.2 = none
  · refine ⟨hok, ?_⟩
    rw [Generate_ok env w h data hok] at hs
    exact (Option.some.inj hs).symm
  · obtain ⟨pre, x, post, hplan, hpre, hx⟩ := exists_first_failure _ _ hok
    obtain ⟨err, herr⟩ := Option.ne_none_iff_exists'.1 hx
    rw [Generate_fail env w h data pre x post err hplan hpre herr] at hs
    cases hs

/-! ## The claims on `Generate` -/

/-- The sample descriptor with the phase `build` loads into `widgetModel` and
    `widgetHeap`. -/
theorem sample_Load_widget :
    (Load sampleEnv (sampleWorld "widget-build") emptyHeap sampleFile).1 = (some 0, none) ∧
    (Load sampleEnv (sampleWorld "widget-build") emptyHeap sampleFile).2.2 =
      widgetHeap [buildPhase] := by
  decide

/-- Every render succeeds in the sample file system. -/
theorem sample_renders_build :
    RendersSucceed sampleEnv (sampleWorld "widget-build") (widgetHeap [buildPhase])
      widgetModel := by
  unfold RendersSucceed
  decide

/-- C3: when every render succeeds, `Generate` returns 11 + 2k files, k the
    number of phases with inputs or outputs; the first 11 are the project
    files; one phase `build` with the input `spec` gives 13 files and one
    phase `noop` without inputs and outputs gives 11. -/
theorem Generate_file_count (env : Env) (w : World) (h : Heap) (data : TemplateData)
    (hok : RendersSucceed env w h data) :
    ∃ files, (Generate env w h data).1 = (some files, none) ∧
      files.length = 11 + 2 * ((h.phases data.Project.Phases).filter
        (fun phase => hasInputs phase || hasOutputs phase)).length ∧
      (files.take 11).map (fun f => { f with Content := "" }) = projectFiles data ∧
      (∀ pr, h.phases data.Project.Phases = [⟨"build", ["spec"], [], pr⟩] →
        files.length = 13) ∧
      (∀ pr, h.phases data.Project.Phases = [⟨"noop", [], [], pr⟩] → files.length = 11) := by
  have hplan := (plan_ok_iff env w h data).2 hok
  have hlen : ((plan env h data).map (filled env w h data)).length =
      11 + 2 * ((h.phases data.Project.Phases).filter
        (fun phase => hasInputs phase || hasOutputs phase)).length := by
    rw [List.length_map, plan_length]
    rfl
  refine ⟨_, by rw [Generate_ok env w h data hplan], hlen, ?_, ?_, ?_⟩
  · simp [plan, projectFiles, filled]
  · intro pr hp
    rw [hlen, hp]
    rfl
  · intro pr hp
    rw [hlen, hp]
    rfl

/-- C3 at the sample model with the one phase `build`. -/
theorem Generate_file_count_witness :
    RendersSucceed sampleEnv (sampleWorld "widget-build") (widgetHeap [buildPhase])
      widgetModel ∧
    ∃ files,
      (Generate sampleEnv (sampleWorld "widget-build") (widgetHeap [buildPhase])
        widgetModel).1 = (some files, none) ∧
      files.length = 11 + 2 * (((widgetHeap [buildPhase]).phases
        widgetModel.Project.Phases).filter
          (fun phase => hasInputs phase || hasOutputs phase)).length ∧
      (files.take 11).map (fun f => { f with Content := "" }) = projectFiles widgetModel ∧
      (∀ pr, (widgetHeap [buildPhase]).phases widgetModel.Project.Phases =
          [⟨"build", ["spec"], [], pr⟩] → files.length = 13) ∧
      (∀ pr, (widgetHeap [buildPhase]).phases widgetModel.Project.Phases =
          [⟨"noop", [], [], pr⟩] → files.length = 11) :=
  ⟨sample_renders_build,
    Generate_file_count sampleEnv (sampleWorld "widget-build") (widgetHeap [buildPhase])
      widgetModel sample_renders_build⟩

/-- C4: among the entries of `projectFiles` and `phaseFiles`, and so among the
    files a successful `Generate` returns, `SkipOverwrite` is true exactly for
    the config file, the spec file and the worker file of a phase, and false
    for every other entry, the parameters file of a phase included. -/
theorem SkipOverwrite_exactly (env : Env) (w : World) (h : Heap) (data : TemplateData)
    (phase : Phase) :
    (projectFiles data).map (fun f => (f.TemplatePath, f.SkipOverwrite)) =
      [("code/main.gotmpl", false), ("code/scheduler.gotmpl", false),
        ("code/config.gotmpl", true), ("code/doc.gotmpl", false),
        ("code/phases.gotmpl", false), ("code/register.gotmpl", false),
        ("code/spec.gotmpl", true), ("code/types.gotmpl", false),
        ("build/Dockerfile.tmpl", false), ("build/user_setup.tmpl", false),
        ("build/entrypoint.tmpl", false)] ∧
    (phaseFiles env data phase).map (fun f => (f.TemplatePath, f.SkipOverwrite)) =
      [("code/parameters.gotmpl", false), ("code/worker.gotmpl", true)] ∧
    (∀ f ∈ projectFiles data ++ phaseFiles env data phase,
      f.SkipOverwrite = true ↔ f.TemplatePath ∈ keptTemplates) ∧
    (∀ files, (Generate env w h data).1.1 = some files →
      ∀ f ∈ files, f.SkipOverwrite = true ↔ f.TemplatePath ∈ keptTemplates) := by
  have hproj : ∀ f ∈ projectFiles data,
      (f.SkipOverwrite = true ↔ f.TemplatePath ∈ keptTemplates) := by
    intro f hf
    simp only [projectFiles, List.mem_cons, List.mem_singleton, List.not_mem_nil,
      or_false] at hf
    rcases hf with rfl | rfl | rfl | rfl | rfl | rfl | rfl | rfl | rfl | rfl | rfl <;>
      simp [keptTemplates]
  have hphase : ∀ ph, ∀ f ∈ phaseFiles env data ph,
      (f.SkipOverwrite = true ↔ f.TemplatePath ∈ keptTemplates) := by
    intro ph f hf
    simp only [phaseFiles, List.mem_cons, List.mem_singleton, List.not_mem_nil,
      or_false] at hf
    rcases hf with rfl | rfl <;> simp [keptTemplates]
  refine ⟨rfl, rfl, ?_, ?_⟩
  · intro f hf
    rcases List.mem_append.1 hf with hf | hf
    · exact hproj f hf
    · exact hphase phase f hf
  · intro files hs f hf
    obtain ⟨_, rfl⟩ := Generate_some env w h data files hs
    obtain ⟨x, hx, rfl⟩ := List.mem_map.1 hf
    rcases (mem_plan env h data x).1 hx with ⟨hm, _⟩ | ⟨ph, _, _, hm, _⟩
    · exact hproj x.1 hm
    · exact hphase ph x.1 hm

/-- C4 at the sample model with the one phase `build`, where `Generate`
    returns 13 files. -/
theorem SkipOverwrite_exactly_witness :
    ((Generate sampleEnv (sampleWorld "widget-build") (widgetHeap [buildPhase])
        widgetModel).1.1.map List.length = some 13) ∧
    ∀ files, (Generate sampleEnv (sampleWorld "widget-build") (widgetHeap [buildPhase])
        widgetModel).1.1 = some files →
      ∀ f ∈ files, f.SkipOverwrite = true ↔ f.TemplatePath ∈ keptTemplates :=
  ⟨by decide,
    (SkipOverwrite_exactly sampleEnv (sampleWorld "widget-build") (widgetHeap [buildPhase])
      widgetModel buildPhase).2.2.2⟩

/-- C5: when every render succeeds, `Generate` returns the project files
    followed by the files of each phase with inputs or outputs, in the order
    of the phases, each with the planner's `OutPath`, `TemplatePath` and
    `SkipOverwrite`; the content of a project file is what the template
    prints against the model, that of a phase file what it prints against
    the owning phase. -/
theorem Generate_fills_plan (env : Env) (w : World) (h : Heap) (data : TemplateData)
    (hok : RendersSucceed env w h data) :
    (Generate env w h data).1 =
      (some
        ((projectFiles data).map (fun f =>
            { f with Content := (renderProjectFile env w h data f.TemplatePath).1.1 }) ++
          ((h.phases data.Project.Phases).filter
              (fun phase => hasInputs phase || hasOutputs phase)).flatMap
            (fun phase => (phaseFiles env data phase).map (fun f =>
              { f with
                Content := (renderWorkerFile env w h data phase f.TemplatePath).1.1 }))),
        none) ∧
    (∀ f ∈ projectFiles data, ∃ text,
      env.Execute h data f.TemplatePath text (.model data) =
        .ok (renderProjectFile env w h data f.TemplatePath).1.1) ∧
    (∀ phase ∈ h.phases data.Project.Phases, (hasInputs phase || hasOutputs phase) = true →
      ∀ f ∈ phaseFiles env data phase, ∃ text,
        env.Execute h data f.TemplatePath text (.phase phase) =
          .ok (renderWorkerFile env w h data phase f.TemplatePath).1.1) := by
  have hplan := (plan_ok_iff env w h data).2 hok
  refine ⟨?_, ?_, ?_⟩
  · rw [Generate_ok env w h data hplan]
    simp only [plan, eligible, List.map_append, List.map_map, List.map_flatMap]
    rfl
  · intro f hf
    obtain ⟨text, _, hex⟩ := renderProjectFile_executes env w h data f.TemplatePath (hok.1 f hf)
    exact ⟨text, hex⟩
  · intro phase hp hel f hf
    obtain ⟨text, _, hex⟩ :=
      renderWorkerFile_executes env w h data phase f.TemplatePath (hok.2 phase hp hel f hf)
    exact ⟨text, hex⟩

/-- C5 at the sample model with the one phase `build`. -/
theorem Generate_fills_plan_witness :
    RendersSucceed sampleEnv (sampleWorld "widget-build") (widgetHeap [buildPhase])
      widgetModel ∧
    ((Generate sampleEnv (sampleWorld "widget-build") (widgetHeap [buildPhase])
        widgetModel).1 =
      (some
        ((projectFiles widgetModel).map (fun f =>
            { f with
              Content := (renderProjectFile sampleEnv (sampleWorld "widget-build")
                (widgetHeap [buildPhase]) widgetModel f.TemplatePath).1.1 }) ++
          (((widgetHeap [buildPhase]).phases widgetModel.Project.Phases).filter
              (fun phase => hasInputs phase || hasOutputs phase)).flatMap
            (fun phase => (phaseFiles sampleEnv widgetModel phase).map (fun f =>
              { f with
                Content := (renderWorkerFile sampleEnv (sampleWorld "widget-build")
                  (widgetHeap [buildPhase]) widgetModel phase f.TemplatePath).1.1 }))),
        none) ∧
    (∀ f ∈ projectFiles widgetModel, ∃ text,
      sampleEnv.Execute (widgetHeap [buildPhase]) widgetModel f.TemplatePath text
          (.model widgetModel) =
        .ok (renderProjectFile sampleEnv (sampleWorld "widget-build")
          (widgetHeap [buildPhase]) widgetModel f.TemplatePath).1.1) ∧
    (∀ phase ∈ (widgetHeap [buildPhase]).phases widgetModel.Project.Phases,
      (hasInputs phase || hasOutputs phase) = true →
      ∀ f ∈ phaseFiles sampleEnv widgetModel phase, ∃ text,
        sampleEnv.Execute (widgetHeap [buildPhase]) widgetModel f.TemplatePath text
            (.phase phase) =
          .ok (renderWorkerFile sampleEnv (sampleWorld "widget-build")
            (widgetHeap [buildPhase]) widgetModel phase f.TemplatePath).1.1)) :=
  ⟨sample_renders_build,
    Generate_fills_plan sampleEnv (sampleWorld "widget-build") (widgetHeap [buildPhase])
      widgetModel sample_renders_build⟩

/-- C6: `Generate` stops at the first render that fails, in the order of the
    plan: it returns the nil list with the error of that render, and has read
    the templates up to that one and no other; when some render fails the
    list is nil and the error is not; when none fails it returns the whole
    plan, filled, and the nil error; it never returns both a list and an
    error, nor neither. -/
theorem Generate_fail_fast (env : Env) (w : World) (h : Heap) (data : TemplateData) :
    (∀ pre x post err, plan env h data = pre ++ x :: post →
      (∀ y ∈ pre, (renderPlanned env w h data y).1.2 = none) →
      (renderPlanned env w h data x).1.2 = some err →
        (Generate env w h data).1 = (none, some err) ∧
        (Generate env w h data).2.reads =
          w.reads ++ (pre ++ [x]).map (fun y => templateSource w y.1.TemplatePath)) ∧
    ((∃ x ∈ plan env h data, (renderPlanned env w h data x).1.2 ≠ none) →
      (Generate env w h data).1.1 = none ∧ (Generate env w h data).1.2 ≠ none) ∧
    ((∀ x ∈ plan env h data, (renderPlanned env w h data x).1.2 = none) →
      (Generate env w h data).1 = (some ((plan env h data).map (filled env w h data)), none) ∧
      (Generate env w h data).2.reads =
        w.reads ++ (plan env h data).map (fun y => templateSource w y.1.TemplatePath)) ∧
    (((Generate env w h data).1.1 = none ∧ (Generate env w h data).1.2 ≠ none) ∨
      ((Generate env w h data).1.1 ≠ none ∧ (Generate env w h data).1.2 = none)) := by
  have hfail : (¬ ∀ x ∈ plan env h data, (renderPlanned env w h data x).1.2 = none) →
      (Generate env w h data).1.1 = none ∧ (Generate env w h data).1.2 ≠ none := by
    intro hn
    obtain ⟨pre, x, post, hplan, hpre, hx⟩ := exists_first_failure _ _ hn
    obtain ⟨err, herr⟩ := Option.ne_none_iff_exists'.1 hx
    rw [Generate_fail env w h data pre x post err hplan hpre herr]
    simp
  refine ⟨?_, ?_, ?_, ?_⟩
  · intro pre x post err hplan hpre hx
    rw [Generate_fail env w h data pre x post err hplan hpre hx]
    exact ⟨rfl, rfl⟩
  · rintro ⟨x, hx, hne⟩
    exact hfail (fun hall => hne (hall x hx))
  · intro hok
    rw [Generate_ok env w h data hok]
    exact ⟨rfl, rfl⟩
  · by_cases hok : ∀ x ∈ plan env h data, (renderPlanned env w h data x).1.2 = none
    · right
      rw [Generate_ok env w h data hok]
      simp
    · left
      exact hfail hok

/-- C6 in the file system without the template of the spec file: the six
    project files before the spec file render, the render of the spec file
    fails, `Generate` returns the nil list with that error, and the templates
    read are those seven. -/
theorem Generate_fail_fast_witness :
    plan sampleEnv (widgetHeap [buildPhase]) widgetModel =
      (plan sampleEnv (widgetHeap [buildPhase]) widgetModel).take 6 ++
        specEntry :: (plan sampleEnv (widgetHeap [buildPhase]) widgetModel).drop 7 ∧
    (Generate sampleEnv brokenWorld (widgetHeap [buildPhase]) widgetModel).1 =
      (none, some specMissing) ∧
    (Generate sampleEnv brokenWorld (widgetHeap [buildPhase]) widgetModel).2.reads =
      brokenWorld.reads ++
        ((plan sampleEnv (widgetHeap [buildPhase]) widgetModel).take 6 ++ [specEntry]).map
          (fun y => templateSource brokenWorld y.1.TemplatePath) :=
  ⟨by decide,
    (Generate_fail_fast sampleEnv brokenWorld (widgetHeap [buildPhase]) widgetModel).1
      ((plan sampleEnv (widgetHeap [buildPhase]) widgetModel).take 6) specEntry
      ((plan sampleEnv (widgetHeap [buildPhase]) widgetModel).drop 7) specMissing
      (by decide) (by decide) (by decide)⟩

/-! ## The types import path -/

theorem splitOnChar_append (c : Char) (b : List Char) :
    ∀ a : List Char, splitOnChar c (a ++ c :: b) = splitOnChar c a ++ splitOnChar c b
  | [] => by simp [splitOnChar]
  | x :: a => by
    have ih := splitOnChar_append c b a
    by_cases hx : x = c
    · simp [splitOnChar, hx, ih]
    · cases hs : splitOnChar c a with
      | nil => exact absurd hs (splitOnChar_ne_nil c a)
      | cons p ps =>
        rw [hs] at ih
        simp [splitOnChar, hx, ih, hs]

theorem intercalate_append (sep : List Char) (B : List (List Char)) (hB : B ≠ []) :
    ∀ A : List (List Char), ∃ pre, sep.intercalate (A ++ B) = pre ++ sep.intercalate B
  | [] => ⟨[], rfl⟩
  | a :: A => by
    obtain ⟨pre, hpre⟩ := intercalate_append sep B hB A
    cases hAB : A ++ B with
    | nil =>
      have : B = [] := (List.append_eq_nil.1 hAB).2
      exact absurd this hB
    | cons b l =>
      rw [hAB] at hpre
      refine ⟨a ++ sep ++ pre, ?_⟩
      rw [List.cons_append, hAB, intercalate_cons_cons, hpre]
      simp

theorem foldl_cleanStep (b : Bool) :
    ∀ (es st : List (List Char)), (∀ e ∈ es, e ≠ dotdot) →
      List.foldl (cleanStep b) st es = es.reverse ++ st
  | [], st, _ => rfl
  | e :: es, st, hnd => by
    have he : cleanStep b st e = e :: st := by
      unfold cleanStep
      rw [if_neg (hnd e (by simp))]
    rw [List.foldl_cons, he, foldl_cleanStep b es _ (fun x hx => hnd x (by simp [hx]))]
    simp

/-- Elements that are not `..` at the end of a path stay at the end of the
    cleaned path. -/
theorem cleanChars_tail (r rest : List Char) (es : List (List Char))
    (hes : pathElems rest = es) (hnd : ∀ e ∈ es, e ≠ dotdot)
    (hI : ['/'].intercalate es ≠ []) :
    ∃ pre, cleanChars (r ++ '/' :: rest) = pre ++ ['/'].intercalate es := by
  have hne : es ≠ [] := by
    intro h
    apply hI
    rw [h]
    rfl
  have hsplit : pathElems (r ++ '/' :: rest) = pathElems r ++ es := by
    rw [← hes]
    unfold pathElems
    rw [splitOnChar_append, List.filter_append]
  unfold cleanChars
  simp only [hsplit, List.foldl_append]
  generalize List.foldl (cleanStep (decide ((r ++ '/' :: rest).head? = some '/'))) []
    (pathElems r) = st0
  rw [foldl_cleanStep _ es st0 hnd, List.reverse_append, List.reverse_reverse]
  obtain ⟨pre, hpre⟩ := intercalate_append ['/'] es hne st0.reverse
  rw [hpre]
  generalize (if (r ++ '/' :: rest).head? = some '/' then ['/'] else []) = q
  have hout : q ++ (pre ++ ['/'].intercalate es) ≠ [] := by
    intro h
    have h1 := (List.append_eq_nil.1 h).2
    exact hI (List.append_eq_nil.1 h1).2
  rw [if_neg hout]
  exact ⟨q ++ pre, by rw [List.append_assoc]⟩

/-- The types import path of kind `Widget`, version `v1`, below any module
    root contains `widgets/v1`. -/
theorem Join_widgets (root : String) :
    "widgets/v1".data <:+: (filepath.Join [root, "pkg", "apis", "widgets", "v1"]).data := by
  by_cases hroot : root = ""
  · subst hroot
    decide
  · have hjoin : (strings.Join [root, "pkg", "apis", "widgets", "v1"] "/").data =
        root.data ++ '/' :: "pkg/apis/widgets/v1".data := by
      simp only [strings.Join, String.intercalate, String.intercalate.go, String.data_append,
        List.append_assoc]
      rfl
    obtain ⟨pre, hpre⟩ := cleanChars_tail root.data "pkg/apis/widgets/v1".data
      ["pkg".data, "apis".data, "widgets".data, "v1".data] (by decide) (by decide) (by decide)
    have htail : ['/'].intercalate ["pkg".data, "apis".data, "widgets".data, "v1".data] =
        "pkg/apis/".data ++ "widgets/v1".data := by decide
    unfold filepath.Join
    rw [if_neg hroot]
    unfold filepath.Clean
    rw [hjoin, hpre, htail]
    exact ⟨pre ++ "pkg/apis/".data, [], by simp⟩

/-- The model of a `Load` that returns one, with the fields as `Load` derives
    them. -/
theorem Load_derived (env : Env) (w : World) (h : Heap) (file : String) (data : Nat)
    (hl : (Load env w h file).1.1 = some data) :
    ∃ model, (Load env w h file).2.2.deref data = some model ∧
      model.ProjectPackage = env.GetGoPkg (Load env w h file).2.1 ∧
      model.Group = (strings.Split model.Project.ApiVersion '/').getD 0 "" ∧
      model.Version = (strings.Split model.Project.ApiVersion '/').getD 1 "" ∧
      (strings.Split model.Project.ApiVersion '/').length = 2 ∧
      model.TypesImportPath = filepath.Join
        [model.ProjectPackage, "pkg", "apis", env.ToLower (env.Plural model.Project.Kind),
          model.Version] ∧
      model.SchedulerImportPath = filepath.Join [model.ProjectPackage, "pkg", "scheduler"] ∧
      model.ConfigImportPath = filepath.Join [model.ProjectPackage, "pkg", "config"] ∧
      model.KindLowerCamel = env.ToLowerCamel model.Project.Kind := by
  obtain ⟨doc, hr, h2⟩ := reaches_of_Load_some env w h file data hl
  obtain ⟨model, hl', hd, _, hav, _, hpkg, hg, hv, ht, hs, hc, hk⟩ :=
    Load_model env w h file doc hr h2
  have hdata : data = h.objects.length := by
    rw [hl'] at hl
    exact (Option.some.inj hl).symm
  subst hdata
  exact ⟨model, hd, hpkg, by rw [hav]; exact hg, by rw [hav]; exact hv, by rw [hav]; exact h2,
    ht, hs, hc, hk⟩

/-- C7: the model of an accepted descriptor has the module root of the
    directory entered as `ProjectPackage`, the segment of the API version
    after its `/` as `Version`, and the import paths
    `Join(root, "pkg", "apis", lowercase(plural(kind)), version)`,
    `Join(root, "pkg", "scheduler")` and `Join(root, "pkg", "config")`; two
    loads with the same module root, kind and API version have the same
    derived fields, whatever their phases; for the kind `Widget` with the API
    version `apps.example.com/v1`, whose lower-case plural is `widgets`, the
    types import path contains `widgets/v1`. -/
theorem Load_import_paths (env : Env) (w₁ w₂ : World) (h₁ h₂ : Heap) (file₁ file₂ : String)
    (data₁ data₂ : Nat) (hl₁ : (Load env w₁ h₁ file₁).1.1 = some data₁)
    (hl₂ : (Load env w₂ h₂ file₂).1.1 = some data₂) :
    ∃ m₁ m₂, (Load env w₁ h₁ file₁).2.2.deref data₁ = some m₁ ∧
      (Load env w₂ h₂ file₂).2.2.deref data₂ = some m₂ ∧
      m₁.ProjectPackage = env.GetGoPkg (Load env w₁ h₁ file₁).2.1 ∧
      m₁.Group ++ "/" ++ m₁.Version = m₁.Project.ApiVersion ∧
      '/' ∉ m₁.Group.data ∧ '/' ∉ m₁.Version.data ∧
      m₁.TypesImportPath = filepath.Join
        [m₁.ProjectPackage, "pkg", "apis", env.ToLower (env.Plural m₁.Project.Kind),
          m₁.Version] ∧
      m₁.SchedulerImportPath = filepath.Join [m₁.ProjectPackage, "pkg", "scheduler"] ∧
      m₁.ConfigImportPath = filepath.Join [m₁.ProjectPackage, "pkg", "config"] ∧
      (m₁.ProjectPackage = m₂.ProjectPackage → m₁.Project.Kind = m₂.Project.Kind →
        m₁.Project.ApiVersion = m₂.Project.ApiVersion →
          m₁.TypesImportPath = m₂.TypesImportPath ∧
          m₁.SchedulerImportPath = m₂.SchedulerImportPath ∧
          m₁.ConfigImportPath = m₂.ConfigImportPath ∧
          m₁.Group = m₂.Group ∧ m₁.Version = m₂.Version ∧
          m₁.KindLowerCamel = m₂.KindLowerCamel) ∧
      (m₁.Project.Kind = "Widget" → m₁.Project.ApiVersion = "apps.example.com/v1" →
        env.ToLower (env.Plural "Widget") = "widgets" →
          "widgets/v1".data <:+: m₁.TypesImportPath.data) := by
  obtain ⟨m₁, hd₁, hp₁, hg₁, hv₁, hn₁, ht₁, hs₁, hc₁, hk₁⟩ :=
    Load_derived env w₁ h₁ file₁ data₁ hl₁
  obtain ⟨m₂, hd₂, _, hg₂, hv₂, _, ht₂, hs₂, hc₂, hk₂⟩ :=
    Load_derived env w₂ h₂ file₂ data₂ hl₂
  obtain ⟨hrt, hng, hnv⟩ := Split_two m₁.Project.ApiVersion hn₁
  rw [← hg₁, ← hv₁] at hrt
  rw [← hg₁] at hng
  rw [← hv₁] at hnv
  refine ⟨m₁, m₂, hd₁, hd₂, hp₁, hrt, hng, hnv, ht₁, hs₁, hc₁, ?_, ?_⟩
  · intro hpkg hkind hav
    have hver : m₁.Version = m₂.Version := by rw [hv₁, hv₂, hav]
    refine ⟨?_, ?_, ?_, ?_, hver, ?_⟩
    · rw [ht₁, ht₂, hpkg, hkind, hver]
    · rw [hs₁, hs₂, hpkg]
    · rw [hc₁, hc₂, hpkg]
    · rw [hg₁, hg₂, hav]
    · rw [hk₁, hk₂, hkind]
  · intro hkind hav hplural
    have hver : m₁.Version = "v1" := by
      rw [hv₁, hav]
      decide
    rw [ht₁, hkind, hplural, hver]
    exact Join_widgets m₁.ProjectPackage

/-- C7 at two sample descriptors of kind `Widget` and API version
    `apps.example.com/v1`, one with the phase `build` and one with the phase
    `noop`. -/
theorem Load_import_paths_witness :
    (Load sampleEnv (sampleWorld "widget-build") emptyHeap sampleFile).1.1 = some 0 ∧
    (Load sampleEnv (sampleWorld "widget-noop") emptyHeap sampleFile).1.1 = some 0 ∧
    ∃ m₁ m₂,
      (Load sampleEnv (sampleWorld "widget-build") emptyHeap sampleFile).2.2.deref 0 =
        some m₁ ∧
      (Load sampleEnv (sampleWorld "widget-noop") emptyHeap sampleFile).2.2.deref 0 =
        some m₂ ∧
      m₁.ProjectPackage =
        sampleEnv.GetGoPkg (Load sampleEnv (sampleWorld "widget-build") emptyHeap sampleFile).2.1 ∧
      m₁.Group ++ "/" ++ m₁.Version = m₁.Project.ApiVersion ∧
      '/' ∉ m₁.Group.data ∧ '/' ∉ m₁.Version.data ∧
      m₁.TypesImportPath = filepath.Join
        [m₁.ProjectPackage, "pkg", "apis",
          sampleEnv.ToLower (sampleEnv.Plural m₁.Project.Kind), m₁.Version] ∧
      m₁.SchedulerImportPath = filepath.Join [m₁.ProjectPackage, "pkg", "scheduler"] ∧
      m₁.ConfigImportPath = filepath.Join [m₁.ProjectPackage, "pkg", "config"] ∧
      (m₁.ProjectPackage = m₂.ProjectPackage → m₁.Project.Kind = m₂.Project.Kind →
        m₁.Project.ApiVersion = m₂.Project.ApiVersion →
          m₁.TypesImportPath = m₂.TypesImportPath ∧
          m₁.SchedulerImportPath = m₂.SchedulerImportPath ∧
          m₁.ConfigImportPath = m₂.ConfigImportPath ∧
          m₁.Group = m₂.Group ∧ m₁.Version = m₂.Version ∧
          m₁.KindLowerCamel = m₂.KindLowerCamel) ∧
      (m₁.Project.Kind = "Widget" → m₁.Project.ApiVersion = "apps.example.com/v1" →
        sampleEnv.ToLower (sampleEnv.Plural "Widget") = "widgets" →
          "widgets/v1".data <:+: m₁.TypesImportPath.data) :=
  ⟨by decide, by decide,
    Load_import_paths sampleEnv (sampleWorld "widget-build") (sampleWorld "widget-noop")
      emptyHeap emptyHeap sampleFile sampleFile 0 0 (by decide) (by decide)⟩

end Autopilot
